import Mathlib

/-!
# HD44780 character display over an I2C port expander: `lcd_i2c.c`

A shallow embedding of the driver in `src/components/lcd_i2c/lcd_i2c.c`, followed by the
countdown timer of `src/components/timer/timer.c` and the push button of
`src/components/encoder/encoder.c`.

* `uint8_t` values are natural numbers; every conversion to `uint8_t` is an explicit `u8`
  (reduction modulo 256).
* The scratch array `uint8_t buf[68]` is a list of bytes; a store `buf[(*idx)++] = v` is
  `PackBuf.store`, which also appends the index to a log of the indices written.
* A C string is the list of the bytes found at `str`, `str + 1`, ...; `strlen` scans it up to
  the first NUL byte (the end of the list stands for the terminator as well).
* The FreeRTOS mutex and the I2C master driver are the environment: a `World` carries whether
  the calling task holds `i2c_mutex`, the outcomes the environment will give to the coming
  `xSemaphoreTake` and transmit calls, and the trace of operations performed so far.
* A function returning `void` returns `Unit` next to the new `World`; a function that can
  end in `abort()` (a failed `configASSERT`, `assert` or `ESP_ERROR_CHECK`) returns an
  `Option`, `none` standing for the abort.
* A pointer that may be `NULL` is an `Option`; the clock, the tick counter and the GPIO
  levels are arguments.
-/

namespace LcdI2c

/-! ## Constants of `lcd_i2c.c` -/

/-- Register-select line: `#define LCD_RS 0x01`. -/
def LCD_RS : Nat := 0x01
/-- Read/write line: `#define LCD_RW 0x02`. -/
def LCD_RW : Nat := 0x02
/-- Enable (strobe) line: `#define LCD_ENABLE 0x04`. -/
def LCD_ENABLE : Nat := 0x04
/-- Backlight line: `#define LCD_BACKLIGHT 0x08`. -/
def LCD_BACKLIGHT : Nat := 0x08

/-- Clear-display command: `#define CMD_CLEAR 0x01`. -/
def CMD_CLEAR : Nat := 0x01
/-- Set-DDRAM-address command: `#define CMD_SET_DDRAM_ADDR 0x80`. -/
def CMD_SET_DDRAM_ADDR : Nat := 0x80
/-- Entry-mode command: `#define CMD_ENTRY 0x06`. -/
def CMD_ENTRY : Nat := 0x06
/-- Display-on command: `#define CMD_DISPLAY_ON 0x0C`. -/
def CMD_DISPLAY_ON : Nat := 0x0C
/-- Function-set command, 4-bit bus: `#define CMD_FUNCTION_SET_4BIT 0x28`. -/
def CMD_FUNCTION_SET_4BIT : Nat := 0x28
/-- Reset nibble, 8-bit bus: `#define CMD_INIT_8BIT 0x30`. -/
def CMD_INIT_8BIT : Nat := 0x30
/-- Switch to the 4-bit bus: `#define CMD_INIT_4BIT 0x20`. -/
def CMD_INIT_4BIT : Nat := 0x20

/-- Result type `esp_err_t` of ESP-IDF (a 32-bit signed integer). -/
abbrev esp_err_t := Int
/-- ESP-IDF success code `ESP_OK`. -/
def ESP_OK : esp_err_t := 0
/-- ESP-IDF code `ESP_ERR_TIMEOUT`. -/
def ESP_ERR_TIMEOUT : esp_err_t := 0x107

/-! ## Machine arithmetic -/

/-- Conversion of an `int` value to `uint8_t`. -/
def u8 (n : Nat) : Nat := n % 256

/-- Bit pattern of `~n` for a 32-bit `int` operand `n`. -/
def bnot32 (n : Nat) : Nat := 0xFFFFFFFF - n

/-! ## The scratch buffer -/

/-- The array `buf`, the write index `idx`, and the log of the indices stored to. -/
structure PackBuf where
  buf : List Nat
  idx : Nat
  writes : List Nat
deriving DecidableEq, Repr

/-- The statement `buf[(*idx)++] = v;` with `v` converted to `uint8_t`. -/
def PackBuf.store (st : PackBuf) (v : Nat) : PackBuf :=
  { buf := st.buf.set st.idx (u8 v)
    idx := st.idx + 1
    writes := st.writes ++ [st.idx] }

/-- Body of `pack_byte_to_buffer(buf, idx, val, mode)`. -/
def pack_byte_to_buffer (st : PackBuf) (val mode : Nat) : PackBuf :=
  -- High Nibble
  let high := u8 ((val &&& 0xF0) ||| mode ||| LCD_BACKLIGHT)
  let st := st.store (high ||| LCD_ENABLE)
  let st := st.store (high &&& bnot32 LCD_ENABLE)
  -- Low Nibble
  let low := u8 (((val <<< 4) &&& 0xF0) ||| mode ||| LCD_BACKLIGHT)
  let st := st.store (low ||| LCD_ENABLE)
  let st := st.store (low &&& bnot32 LCD_ENABLE)
  st

/-! ## C strings -/

/-- The function `strlen`: number of bytes before the first NUL. -/
def strlen : List Nat → Nat
  | [] => 0
  | c :: cs => if c = 0 then 0 else strlen cs + 1

/-- The read `(uint8_t)str[i]`. -/
def charAt (str : List Nat) (i : Nat) : Nat := u8 (str.getD i 0)

/-! ## Packing phase of `lcd_send_row` -/

/-- The local `addr` of `lcd_send_row`. -/
def rowAddr (row : Nat) : Nat :=
  u8 (if row = 0 then CMD_SET_DDRAM_ADDR ||| 0x00 else 0xC0)

/-- One iteration of the `for` loop of `lcd_send_row`. -/
def rowLoopBody (str : List Nat) (st : PackBuf) (i : Nat) : PackBuf :=
  let c := if i < strlen str then charAt str i else u8 0x20
  pack_byte_to_buffer st c LCD_RS

/-- Steps 1 and 2 of `lcd_send_row`: `buf0` is the content of the uninitialised array. -/
def lcd_send_row_pack (buf0 : List Nat) (row : Nat) (str : List Nat) : PackBuf :=
  let st : PackBuf := { buf := buf0, idx := 0, writes := [] }
  let st := pack_byte_to_buffer st (rowAddr row) 0
  (List.range 16).foldl (rowLoopBody str) st

/-! ## Environment: mutex and bus -/

/-- Messages logged through `ESP_LOGE`. -/
inductive LogMsg
  | mutexTimeout
  | transmitFailed
  | nibbleTxFailed
  | highNibbleFailed
  | lowNibbleFailed
deriving DecidableEq, Repr

/-- Messages logged through `ESP_LOGI`. -/
inductive InfoMsg
  | initialisingBus
  | lcdInitialised
deriving DecidableEq, Repr

/-- Operations on the guard and on the bus, as they appear in the trace. -/
inductive Event
  /-- A call `xSemaphoreTake(i2c_mutex, pdMS_TO_TICKS(ms))` and whether it was granted. -/
  | take (ms : Nat) (granted : Bool)
  /-- A call `xSemaphoreGive(i2c_mutex)`. -/
  | give
  /-- A call `i2c_master_transmit(lcd_dev, data, len, timeout)`. -/
  | transmit (data : List Nat) (timeout : Int)
  /-- A call `i2c_master_multi_buffer_transmit(lcd_dev, info, n, timeout)`, one list per
  buffer descriptor. -/
  | transmitMulti (buffers : List (List Nat)) (timeout : Int)
  /-- A call `esp_rom_delay_us(us)`. -/
  | delayUs (us : Nat)
  /-- A call `vTaskDelay(pdMS_TO_TICKS(ms))`. -/
  | delayMs (ms : Nat)
  /-- A call of `ESP_LOGE`. -/
  | logE (msg : LogMsg)
  /-- A call of `ESP_LOGI`. -/
  | logI (msg : InfoMsg)
deriving DecidableEq, Repr

/-- State of the environment seen by the calling task. -/
structure World where
  /-- Whether the calling task holds `i2c_mutex`. -/
  held : Bool
  /-- Outcome of the `k`-th `xSemaphoreTake` call. -/
  takeOracle : Nat → Bool
  /-- Result of the `k`-th bus transmission. -/
  txOracle : Nat → esp_err_t
  /-- Number of `xSemaphoreTake` calls made so far. -/
  nTake : Nat
  /-- Number of bus transmissions made so far. -/
  nTx : Nat
  /-- Operations performed so far, oldest first. -/
  trace : List Event

/-- A world in which nothing has happened yet and the guard is not held by the caller. -/
def World.init (takeOracle : Nat → Bool) (txOracle : Nat → esp_err_t) : World :=
  { held := false, takeOracle := takeOracle, txOracle := txOracle,
    nTake := 0, nTx := 0, trace := [] }

/-- Append an operation to the trace. -/
def World.emit (w : World) (e : Event) : World :=
  { w with trace := w.trace ++ [e] }

/-- FreeRTOS `xSemaphoreTake(i2c_mutex, pdMS_TO_TICKS(ms)) == pdTRUE`. -/
def xSemaphoreTake (w : World) (ms : Nat) : Bool × World :=
  let granted := w.takeOracle w.nTake
  (granted,
    { (w.emit (Event.take ms granted)) with
        held := w.held || granted
        nTake := w.nTake + 1 })

/-- FreeRTOS `xSemaphoreGive(i2c_mutex)`. -/
def xSemaphoreGive (w : World) : World :=
  { (w.emit Event.give) with held := false }

/-- ESP-IDF `i2c_master_transmit(lcd_dev, data, len, timeout)`. -/
def i2c_master_transmit (w : World) (data : List Nat) (timeout : Int) : esp_err_t × World :=
  (w.txOracle w.nTx, { (w.emit (Event.transmit data timeout)) with nTx := w.nTx + 1 })

/-- ESP-IDF `i2c_master_multi_buffer_transmit(lcd_dev, info, n, timeout)`. -/
def i2c_master_multi_buffer_transmit (w : World) (buffers : List (List Nat)) (timeout : Int) :
    esp_err_t × World :=
  (w.txOracle w.nTx, { (w.emit (Event.transmitMulti buffers timeout)) with nTx := w.nTx + 1 })

/-- ESP-IDF `esp_rom_delay_us(us)`. -/
def esp_rom_delay_us (w : World) (us : Nat) : World := w.emit (Event.delayUs us)

/-- The macro `ESP_LOGE`. -/
def ESP_LOGE (w : World) (msg : LogMsg) : World := w.emit (Event.logE msg)

/-- The macro `ESP_LOGI`. -/
def ESP_LOGI (w : World) (msg : InfoMsg) : World := w.emit (Event.logI msg)

/-- FreeRTOS `vTaskDelay(pdMS_TO_TICKS(ms))`. -/
def vTaskDelay (w : World) (ms : Nat) : World := w.emit (Event.delayMs ms)

/-! ## Driver functions -/

/-- The function `lcd_i2c_tx(data, len)`; `data` holds the `len` bytes to send. -/
def lcd_i2c_tx (w : World) (data : List Nat) : esp_err_t × World :=
  match xSemaphoreTake w 100 with
  | (false, w) => (ESP_ERR_TIMEOUT, ESP_LOGE w LogMsg.mutexTimeout)
  | (true, w) =>
    let (err, w) := i2c_master_transmit w data (-1)
    let w := if err ≠ ESP_OK then ESP_LOGE w LogMsg.transmitFailed else w
    let w := xSemaphoreGive w
    (err, w)

/-- The local array `pkt` of `lcd_write_nibble(nibble, mode)`. -/
def lcd_write_nibble_pkt (nibble mode : Nat) : List Nat :=
  let data := u8 ((nibble &&& 0xF0) ||| mode ||| LCD_BACKLIGHT)
  [u8 (data ||| LCD_ENABLE),        -- EN = 1
   u8 (data &&& bnot32 LCD_ENABLE)] -- EN = 0

/-- The function `lcd_write_nibble(nibble, mode)`. -/
def lcd_write_nibble (w : World) (nibble mode : Nat) : esp_err_t × World :=
  let pkt := lcd_write_nibble_pkt nibble mode
  let (err, w) := lcd_i2c_tx w pkt
  if err ≠ ESP_OK then
    (err, ESP_LOGE w LogMsg.nibbleTxFailed)
  else
    (ESP_OK, esp_rom_delay_us w 50)

/-- The descriptor `info` of `lcd_send_row`: `write_buffer = buf`, `buffer_size = 68`. -/
def rowInfo (st : PackBuf) : List Nat := st.buf.take 68

/-- The function `lcd_send_row(row, str)`; `buf0` is the content of the uninitialised array
`buf` on entry. -/
def lcd_send_row (w : World) (buf0 : List Nat) (row : Nat) (str : List Nat) :
    esp_err_t × World :=
  let st := lcd_send_row_pack buf0 row str
  let info := rowInfo st
  match xSemaphoreTake w 50 with
  | (true, w) =>
    let (err, w) := i2c_master_multi_buffer_transmit w [info] 100
    let w := xSemaphoreGive w
    (err, w)
  | (false, w) => (ESP_ERR_TIMEOUT, w)

/-- The function `lcd_send_byte(val, mode)`. -/
def lcd_send_byte (w : World) (val mode : Nat) : Unit × World :=
  let (err, w) := lcd_write_nibble w (u8 (val &&& 0xF0)) mode
  if err ≠ ESP_OK then
    ((), ESP_LOGE w LogMsg.highNibbleFailed)
  else
    let (err, w) := lcd_write_nibble w (u8 ((val <<< 4) &&& 0xF0)) mode
    if err ≠ ESP_OK then
      ((), ESP_LOGE w LogMsg.lowNibbleFailed)
    else
      ((), w)

/-- The function `lcd_clear()`; `inIsr` is the value of `xPortInIsrContext()`. -/
def lcd_clear (w : World) (inIsr : Bool) : Option (Unit × World) :=
  if inIsr then none   -- configASSERT(!xPortInIsrContext())
  else
    let (_, w) := lcd_send_byte w CMD_CLEAR 0
    some ((), esp_rom_delay_us w 2000)

/-- What the environment answers to the set-up calls of `lcd_i2c_init`. -/
structure InitEnv where
  /-- Value of `xPortInIsrContext()`. -/
  inIsr : Bool
  /-- Result of `i2c_new_master_bus`. -/
  busErr : esp_err_t
  /-- Result of `i2c_master_bus_add_device`. -/
  devErr : esp_err_t
  /-- Whether `xSemaphoreCreateMutex` returned a handle. -/
  mutexOk : Bool

/-- The function `lcd_i2c_init()`. -/
def lcd_i2c_init (w : World) (env : InitEnv) : Option (Unit × World) :=
  if env.inIsr then none   -- configASSERT(!xPortInIsrContext())
  else
    let w := ESP_LOGI w InfoMsg.initialisingBus
    if env.busErr ≠ ESP_OK then none   -- ESP_ERROR_CHECK(i2c_new_master_bus(...))
    else if env.devErr ≠ ESP_OK then none   -- ESP_ERROR_CHECK(i2c_master_bus_add_device(...))
    else if !env.mutexOk then none   -- assert(i2c_mutex)
    else
      let w := { w with held := false }   -- a mutex just created is not held
      let w := vTaskDelay w 100
      let (_, w) := lcd_write_nibble w CMD_INIT_8BIT 0
      let w := vTaskDelay w 5
      let (_, w) := lcd_write_nibble w CMD_INIT_8BIT 0
      let w := esp_rom_delay_us w 150
      let (_, w) := lcd_write_nibble w CMD_INIT_8BIT 0
      let w := esp_rom_delay_us w 150
      let (_, w) := lcd_write_nibble w CMD_INIT_4BIT 0
      let w := esp_rom_delay_us w 150
      let (_, w) := lcd_send_byte w CMD_FUNCTION_SET_4BIT 0
      let (_, w) := lcd_send_byte w CMD_DISPLAY_ON 0
      let (_, w) := lcd_send_byte w CMD_ENTRY 0
      match lcd_clear w env.inIsr with
      | none => none
      | some (_, w) => some ((), ESP_LOGI w InfoMsg.lcdInitialised)

/-! ## Predicates on the wire format -/

/-- The enable-high / enable-low discipline of a pair of consecutive bus bytes: the enable
bit is set in the first, clear in the second, and the other seven bits are equal. -/
def enablePair (a b : Nat) : Prop :=
  a &&& 0x04 = 0x04 ∧ b &&& 0x04 = 0 ∧ a &&& 0xFB = b &&& 0xFB

/-! ## Guard discipline on traces -/

/-- Replays a trace from a state in which the caller holds the guard (`true`) or not
(`false`); the result is the final state, or `none` when the trace breaks the discipline:
a transmission or a give while the guard is not held, or a granted take while it is held. -/
def guardReplay : Bool → List Event → Option Bool
  | held, [] => some held
  | held, Event.take _ granted :: es =>
    if granted then (if held then none else guardReplay true es) else guardReplay held es
  | held, Event.give :: es => if held then guardReplay false es else none
  | held, Event.transmit _ _ :: es => if held then guardReplay held es else none
  | held, Event.transmitMulti _ _ :: es => if held then guardReplay held es else none
  | held, Event.delayUs _ :: es => guardReplay held es
  | held, Event.delayMs _ :: es => guardReplay held es
  | held, Event.logE _ :: es => guardReplay held es
  | held, Event.logI _ :: es => guardReplay held es

/-! ## Reference traces used in the proofs -/

/-- The operations of one `lcd_write_nibble` call, given whether the take is granted and the
result of the transmission. -/
def nibbleOps (granted : Bool) (err : esp_err_t) (nibble mode : Nat) : List Event :=
  if granted then
    [Event.take 100 true, Event.transmit (lcd_write_nibble_pkt nibble mode) (-1)]
      ++ (if err ≠ ESP_OK then [Event.logE LogMsg.transmitFailed] else [])
      ++ [Event.give]
      ++ (if err ≠ ESP_OK then [Event.logE LogMsg.nibbleTxFailed] else [Event.delayUs 50])
  else
    [Event.take 100 false, Event.logE LogMsg.mutexTimeout, Event.logE LogMsg.nibbleTxFailed]

/-- The operations of a `lcd_write_nibble` call in which everything succeeds. -/
def nibbleOk (nibble mode : Nat) : List Event := nibbleOps true ESP_OK nibble mode

/-- The operations of a `lcd_send_byte` call in which everything succeeds. -/
def byteOk (val mode : Nat) : List Event :=
  nibbleOk (u8 (val &&& 0xF0)) mode ++ nibbleOk (u8 ((val <<< 4) &&& 0xF0)) mode

/-- The bytes put on the bus by a trace, in order. -/
def wireBytes : List Event → List Nat
  | [] => []
  | Event.transmit data _ :: es => data ++ wireBytes es
  | Event.transmitMulti buffers _ :: es => buffers.flatten ++ wireBytes es
  | _ :: es => wireBytes es

/-- The payloads of the single-buffer transmissions of a trace, in order. -/
def transmitted : List Event → List (List Nat)
  | [] => []
  | Event.transmit data _ :: es => data :: transmitted es
  | _ :: es => transmitted es

/-- The world `w'` is reached from `w` by the operations `es`, with between `lo` and `hi`
takes, the outcomes to come being left as they were; and if one of the takes or
transmissions made on the way failed, `es` holds the error line of `lcd_write_nibble`. -/
def Reaches (w w' : World) (es : List Event) (lo hi : Nat) : Prop :=
  w'.takeOracle = w.takeOracle ∧ w'.txOracle = w.txOracle ∧ w'.trace = w.trace ++ es
    ∧ w.nTake + lo ≤ w'.nTake ∧ w'.nTake ≤ w.nTake + hi ∧ w.nTx ≤ w'.nTx
    ∧ (((∃ k, w.nTake ≤ k ∧ k < w'.nTake ∧ w.takeOracle k = false)
          ∨ (∃ k, w.nTx ≤ k ∧ k < w'.nTx ∧ w.txOracle k ≠ ESP_OK))
        → Event.logE LogMsg.nibbleTxFailed ∈ es)

/-- The next `n` takes are granted and the next `n` transmissions succeed. -/
def BusWorks (w : World) (n : Nat) : Prop :=
  (∀ k, k < n → w.takeOracle (w.nTake + k) = true)
    ∧ (∀ k, k < n → w.txOracle (w.nTx + k) = ESP_OK)

/-- The world `w'` is reached from `w` by the operations `es`, in which `n` takes were granted
and `n` transmissions made. -/
def Runs (w w' : World) (es : List Event) (n : Nat) : Prop :=
  w'.takeOracle = w.takeOracle ∧ w'.txOracle = w.txOracle ∧ w'.nTake = w.nTake + n
    ∧ w'.nTx = w.nTx + n ∧ w'.trace = w.trace ++ es

/-- The operations of `lcd_i2c_init` when the bus works. -/
def initOps : List Event :=
  [Event.logI InfoMsg.initialisingBus, Event.delayMs 100]
    ++ nibbleOk CMD_INIT_8BIT 0 ++ [Event.delayMs 5]
    ++ nibbleOk CMD_INIT_8BIT 0 ++ [Event.delayUs 150]
    ++ nibbleOk CMD_INIT_8BIT 0 ++ [Event.delayUs 150]
    ++ nibbleOk CMD_INIT_4BIT 0 ++ [Event.delayUs 150]
    ++ byteOk CMD_FUNCTION_SET_4BIT 0
    ++ byteOk CMD_DISPLAY_ON 0
    ++ byteOk CMD_ENTRY 0
    ++ byteOk CMD_CLEAR 0 ++ [Event.delayUs 2000, Event.logI InfoMsg.lcdInitialised]

/-- The operations of one `lcd_send_byte` call made when `nt` takes and `nx` transmissions
have been made, `tk` and `tx` giving the outcomes of the takes and transmissions: the high
nibble, then either the error line of the high nibble, the low nibble being skipped, or the
low nibble with its error line if it fails. -/
def byteOps (tk : Nat → Bool) (tx : Nat → esp_err_t) (nt nx val mode : Nat) : List Event :=
  if tk nt = true ∧ tx nx = ESP_OK then
    nibbleOk (u8 (val &&& 0xF0)) mode
      ++ nibbleOps (tk (nt + 1)) (tx (nx + 1)) (u8 ((val <<< 4) &&& 0xF0)) mode
      ++ (if tk (nt + 1) = true ∧ tx (nx + 1) = ESP_OK then []
          else [Event.logE LogMsg.lowNibbleFailed])
  else
    nibbleOps (tk nt) (tx nx) (u8 (val &&& 0xF0)) mode
      ++ [Event.logE LogMsg.highNibbleFailed]

/-- The number of takes of that `lcd_send_byte` call. -/
def byteTakes (tk : Nat → Bool) (tx : Nat → esp_err_t) (nt nx : Nat) : Nat :=
  if tk nt = true ∧ tx nx = ESP_OK then 2 else 1

/-- The number of transmissions of that `lcd_send_byte` call. -/
def byteTx (tk : Nat → Bool) (tx : Nat → esp_err_t) (nt nx : Nat) : Nat :=
  if tk nt = true then (if tx nx = ESP_OK ∧ tk (nt + 1) = true then 2 else 1) else 0

/-- The steps of `lcd_i2c_init` once the bus is set up; nibbles and bytes are commands. -/
inductive InitStep
  | info (msg : InfoMsg)
  | waitMs (ms : Nat)
  | waitUs (us : Nat)
  | nibble (n : Nat)
  | byte (val : Nat)
deriving DecidableEq, Repr

/-- The steps of `lcd_i2c_init`, in the order of the source. -/
def initScript : List InitStep :=
  [InitStep.info InfoMsg.initialisingBus, InitStep.waitMs 100,
    InitStep.nibble 0x30, InitStep.waitMs 5,
    InitStep.nibble 0x30, InitStep.waitUs 150,
    InitStep.nibble 0x30, InitStep.waitUs 150,
    InitStep.nibble 0x20, InitStep.waitUs 150,
    InitStep.byte 0x28, InitStep.byte 0x0C, InitStep.byte 0x06,
    InitStep.byte 0x01, InitStep.waitUs 2000, InitStep.info InfoMsg.lcdInitialised]

/-- The operations of a list of steps carried out one after the other, whatever fails, when
`nt` takes and `nx` transmissions have been made before. -/
def scriptOps (tk : Nat → Bool) (tx : Nat → esp_err_t) : Nat → Nat → List InitStep → List Event
  | _, _, [] => []
  | nt, nx, InitStep.info msg :: rest => Event.logI msg :: scriptOps tk tx nt nx rest
  | nt, nx, InitStep.waitMs ms :: rest => Event.delayMs ms :: scriptOps tk tx nt nx rest
  | nt, nx, InitStep.waitUs us :: rest => Event.delayUs us :: scriptOps tk tx nt nx rest
  | nt, nx, InitStep.nibble n :: rest =>
    nibbleOps (tk nt) (tx nx) n 0
      ++ scriptOps tk tx (nt + 1) (if tk nt = true then nx + 1 else nx) rest
  | nt, nx, InitStep.byte val :: rest =>
    byteOps tk tx nt nx val 0
      ++ scriptOps tk tx (nt + byteTakes tk tx nt nx) (nx + byteTx tk tx nt nx) rest

/-- In the world `w1`, the steps `rest` are what is left to do of the operations `full`. -/
def Remaining (tk : Nat → Bool) (tx : Nat → esp_err_t) (full : List Event) (w1 : World)
    (rest : List InitStep) : Prop :=
  w1.takeOracle = tk ∧ w1.txOracle = tx
    ∧ full = w1.trace ++ scriptOps tk tx w1.nTake w1.nTx rest

/-! ## Sample environments -/

/-- A fresh world in which the guard is always free and only the fifth transmission, the
high nibble of the first full byte of `lcd_i2c_init`, fails. -/
def highNibbleFails : World :=
  World.init (fun _ => true) (fun k => if k = 4 then -1 else ESP_OK)


/-- A fresh world in which the guard is always free and the bus always works. -/
def busFine : World := World.init (fun _ => true) (fun _ => ESP_OK)

/-- A fresh world in which the guard is always free and only the first transmission fails
(with `ESP_FAIL`, which is -1). -/
def busFailsOnce : World := World.init (fun _ => true) (fun k => if k = 0 then -1 else ESP_OK)

/-- A fresh world in which the guard is never granted. -/
def guardBusy : World := World.init (fun _ => false) (fun _ => ESP_OK)

/-- A set-up in which the bus, the device and the mutex are created, outside of an ISR. -/
def setupOk : InitEnv := { inIsr := false, busErr := ESP_OK, devErr := ESP_OK, mutexOk := true }

/-! ## Reference encoding used in the proofs -/

/-- The four bytes `pack_byte_to_buffer` stores for `val` and `mode`. -/
def encByte (val mode : Nat) : List Nat :=
  let high := u8 ((val &&& 0xF0) ||| mode ||| LCD_BACKLIGHT)
  let low := u8 (((val <<< 4) &&& 0xF0) ||| mode ||| LCD_BACKLIGHT)
  [u8 (high ||| LCD_ENABLE), u8 (high &&& bnot32 LCD_ENABLE),
   u8 (low ||| LCD_ENABLE), u8 (low &&& bnot32 LCD_ENABLE)]

/-- The character sent for cell `i` of the row. -/
def rowCell (str : List Nat) (i : Nat) : Nat :=
  if i < strlen str then charAt str i else u8 0x20

/-- The 68 bytes of a row transaction. -/
def rowBytes (row : Nat) (str : List Nat) : List Nat :=
  encByte (rowAddr row) 0 ++
    ((List.range 16).map (rowCell str)).flatMap (fun c => encByte c LCD_RS)

/-- Cell `g` of a row buffer, decoded: the high nibble of the group's first byte is the high
nibble, the high nibble of its third byte is the low nibble. -/
def decodeCell (buf : List Nat) (g : Nat) : Nat :=
  (buf.getD (4 + 4 * g) 0 &&& 0xF0) ||| (buf.getD (4 + 4 * g + 2) 0 >>> 4)

/-- The command byte encoded in the first four bytes of a row buffer. -/
def decodeAddr (buf : List Nat) : Nat :=
  (buf.getD 0 0 &&& 0xF0) ||| (buf.getD 2 0 >>> 4)

end LcdI2c

/-! # Countdown timer: `timer.c` -/

namespace CountdownTimer

/-- The enumeration `enum Mode` of `timer.h`. -/
inductive Mode
  | SETTING
  | RUNNING
  | PAUSED
deriving DecidableEq, Repr

/-- Reduction of an integer to the range of `int64_t` (two's complement). -/
def i64 (x : Int) : Int := (x + 2 ^ 63) % 2 ^ 64 - 2 ^ 63

/-- The structure `struct Timer`. -/
structure Timer where
  mode : Mode
  /-- Microsecond timestamp of the last start or resume. -/
  start_time_us : Int
  /-- Duration in microseconds. -/
  duration_us : Int
deriving DecidableEq, Repr

/-- The function `min_to_us(minutes)`; `minutes` is an `int8_t` value. -/
def min_to_us (minutes : Int) : Int := i64 (i64 (minutes * 60) * 1000000)

/-- The function `init_timer(duration_min)`; `callocOk` tells whether `calloc` returned
memory, which it hands out zeroed. -/
def init_timer (callocOk : Bool) (duration_min : Int) : Option Timer :=
  if !callocOk then none
  else some { mode := Mode.SETTING, start_time_us := 0, duration_us := min_to_us duration_min }

/-- The function `timer_start(t, duration_us)`; `now` is the value of
`esp_timer_get_time()`. -/
def timer_start (t : Option Timer) (now : Int) (duration_us : Int) : Option Timer :=
  match t with
  | none => none
  | some _ => some { mode := Mode.RUNNING, start_time_us := now, duration_us := duration_us }

/-- The function `timer_pause(t)`; `now` is the value of `esp_timer_get_time()`. -/
def timer_pause (t : Option Timer) (now : Int) : Option Timer :=
  match t with
  | none => none
  | some t =>
    let elapsed_us := i64 (now - t.start_time_us)
    some { t with duration_us := i64 (t.duration_us - elapsed_us), mode := Mode.PAUSED }

/-- The function `timer_resume(t)`; `now` is the value of `esp_timer_get_time()`. -/
def timer_resume (t : Option Timer) (now : Int) : Option Timer :=
  match t with
  | none => none
  | some t => some { t with start_time_us := now, mode := Mode.RUNNING }

/-- The function `timer_stop(t)`. -/
def timer_stop (t : Option Timer) : Option Timer :=
  match t with
  | none => none
  | some t => some { t with mode := Mode.SETTING }

/-- The function `timer_expired(t)`; `now` is the value `esp_timer_get_time()` has when the
timer is running. -/
def timer_expired (t : Option Timer) (now : Int) : Bool × Option Timer :=
  match t with
  | none => (false, none)
  | some t =>
    if t.mode ≠ Mode.RUNNING then (false, some t)
    else if i64 (now - t.start_time_us) ≥ t.duration_us then
      (true, some { t with duration_us := 0, mode := Mode.SETTING })
    else (false, some t)

/-- The function `timer_remaining(t)`; `now` is the value `esp_timer_get_time()` has when
the timer is running. -/
def timer_remaining (t : Option Timer) (now : Int) : Int :=
  match t with
  | none => 0
  | some t =>
    if t.mode = Mode.SETTING then t.duration_us
    else if t.mode = Mode.PAUSED then t.duration_us
    else
      let elapsed := i64 (now - t.start_time_us)
      let remaining := i64 (t.duration_us - elapsed)
      if remaining > 0 then remaining else 0

end CountdownTimer

/-! # Rotary encoder and its push button: `encoder.c` -/

namespace RotaryEncoder

/-- The threshold `#define LONG_PRESS_DURATION_MS 1000`. -/
def LONG_PRESS_DURATION_MS : Nat := 1000

/-- The enumeration `ClickType` of `encoder.h`. -/
inductive ClickType
  | NO_CLICK
  | SHORT_CLICK
  | LONG_CLICK
deriving DecidableEq, Repr

/-- Conversion to `uint32_t`. -/
def u32 (n : Nat) : Nat := n % 2 ^ 32

/-- The structure `struct Encoder`. -/
structure Encoder where
  value : Int
  min : Int
  max : Int
  step : Int
  last_clk : Int
  last_state : Int
  press_start_time : Nat
  is_pressed : Bool
  clk_pin : Int
  dt_pin : Int
  sw_pin : Int
deriving DecidableEq, Repr

/-- The function `encoder_check_click(e)`. `portTICK_PERIOD_MS` is the FreeRTOS tick period
in milliseconds, `current_sw` the level read by `gpio_get_level(e->sw_pin)` and `tick` the
value `xTaskGetTickCount()` returns during the call (a `uint32_t`). -/
def encoder_check_click (portTICK_PERIOD_MS : Nat) (e : Option Encoder) (current_sw : Int)
    (tick : Nat) : ClickType × Option Encoder :=
  match e with
  | none => (ClickType.NO_CLICK, none)
  | some e =>
    -- Button is pressed (pull-up: 0 = pressed)
    if current_sw = 0 ∧ e.is_pressed = false then
      (ClickType.NO_CLICK, some { e with press_start_time := u32 tick, is_pressed := true })
    -- Button is released
    else if current_sw = 1 ∧ e.is_pressed = true then
      let duration := u32 (u32 (tick + 2 ^ 32 - e.press_start_time) * portTICK_PERIOD_MS)
      let e := { e with is_pressed := false }
      if duration ≥ LONG_PRESS_DURATION_MS then (ClickType.LONG_CLICK, some e)
      else if duration > 50 then (ClickType.SHORT_CLICK, some e)
      else (ClickType.NO_CLICK, some e)
    else (ClickType.NO_CLICK, some e)

/-- The enumeration `RotationType` of `encoder.h`. -/
inductive RotationType
  | NONE
  | CLOCKWISE
  | COUNTERCLOCKWISE
deriving DecidableEq, Repr

/-- Reduction of an integer to the range of `int` (32 bits, two's complement). -/
def i32 (x : Int) : Int := (x + 2 ^ 31) % 2 ^ 32 - 2 ^ 31

/-- The function `encoder_check_rotation(e)`. `current_clk` is the level read by
`gpio_get_level(e->clk_pin)` and `current_dt` the level `gpio_get_level(e->dt_pin)` gives
when it is read. -/
def encoder_check_rotation (e : Option Encoder) (current_clk current_dt : Int) :
    RotationType × Option Encoder :=
  match e with
  | none => (RotationType.NONE, none)
  | some e =>
    -- Only look for the falling edge (1 to 0 transition)
    if e.last_clk = 1 ∧ current_clk = 0 then
      if current_dt ≠ current_clk then
        let value := i32 (e.value + e.step)
        let value := if value > e.max then e.max else value
        (RotationType.CLOCKWISE, some { e with value := value, last_clk := current_clk })
      else
        let value := i32 (e.value - e.step)
        let value := if value < e.min then e.min else value
        (RotationType.COUNTERCLOCKWISE,
          some { e with value := value, last_clk := current_clk })
    else
      (RotationType.NONE, some { e with last_clk := current_clk })

/-- The encoder as `app_main` configures it (pins 4, 5, 6, values 1 to 120, step 1, initial
value 15), with the button up. -/
def idleEncoder : Encoder :=
  { value := 15, min := 1, max := 120, step := 1, last_clk := 1, last_state := 0,
    press_start_time := 0, is_pressed := false, clk_pin := 4, dt_pin := 5, sw_pin := 6 }

end RotaryEncoder

namespace LcdI2c

/-! ## Lemmas on the packing phase -/

theorem set_append_add {α : Type} (pre t : List α) (k : Nat) (v : α) :
    (pre ++ t).set (pre.length + k) v = pre ++ t.set k v := by
  induction pre with
  | nil => simp
  | cons x xs ih =>
    have h : (x :: xs).length + k = (xs.length + k) + 1 := by simp; omega
    rw [h]
    simp [ih]

theorem pack_split (pre rest ws : List Nat) (a b c d val mode : Nat) :
    pack_byte_to_buffer ⟨pre ++ a :: b :: c :: d :: rest, pre.length, ws⟩ val mode
      = ⟨(pre ++ encByte val mode) ++ rest, (pre ++ encByte val mode).length,
          ws ++ [pre.length, pre.length + 1, pre.length + 2, pre.length + 3]⟩ := by
  have h0 : ∀ (t : List Nat) (v : Nat), (pre ++ t).set pre.length v = pre ++ t.set 0 v :=
    fun t v => set_append_add pre t 0 v
  have h1 : ∀ (t : List Nat) (v : Nat),
      (pre ++ t).set (pre.length + 1) v = pre ++ t.set 1 v :=
    fun t v => set_append_add pre t 1 v
  have h2 : ∀ (t : List Nat) (v : Nat),
      (pre ++ t).set (pre.length + 1 + 1) v = pre ++ t.set 2 v :=
    fun t v => set_append_add pre t 2 v
  have h3 : ∀ (t : List Nat) (v : Nat),
      (pre ++ t).set (pre.length + 1 + 1 + 1) v = pre ++ t.set 3 v :=
    fun t v => set_append_add pre t 3 v
  simp [pack_byte_to_buffer, PackBuf.store, encByte, h0, h1, h2, h3]

/-- A list with at least four elements starts with four elements. -/
theorem exists_four {α : Type} (l : List α) (h : 4 ≤ l.length) :
    ∃ a b c d rest, l = a :: b :: c :: d :: rest := by
  match l, h with
  | a :: b :: c :: d :: rest, _ => exact ⟨a, b, c, d, rest, rfl⟩

theorem encByte_length (val mode : Nat) : (encByte val mode).length = 4 := rfl

/-- Packing a list of bytes one after the other fills the buffer from `idx` on with their
encodings and leaves the rest of the buffer untouched. -/
theorem foldl_pack (mode : Nat) (cs : List Nat) :
    ∀ (pre rest ws : List Nat), 4 * cs.length ≤ rest.length →
      cs.foldl (fun st c => pack_byte_to_buffer st c mode) ⟨pre ++ rest, pre.length, ws⟩
        = ⟨pre ++ cs.flatMap (fun c => encByte c mode) ++ rest.drop (4 * cs.length),
            pre.length + 4 * cs.length,
            ws ++ List.range' pre.length (4 * cs.length)⟩ := by
  induction cs with
  | nil => intro pre rest ws _; simp
  | cons c cs ih =>
    intro pre rest ws h
    simp only [List.length_cons] at h
    obtain ⟨a, b, c0, d, rest1, rfl⟩ := exists_four rest (by omega)
    simp only [List.length_cons] at h
    rw [List.foldl_cons, pack_split, ih _ _ _ (by omega)]
    have e : 4 * (c :: cs).length = (4 * cs.length + 3) + 1 := by simp; omega
    have r : List.range' pre.length (4 * cs.length + 3 + 1)
        = [pre.length, pre.length + 1, pre.length + 2, pre.length + 3]
          ++ List.range' (pre.length + 4) (4 * cs.length) := by
      rw [show 4 * cs.length + 3 + 1 = 4 * cs.length + 4 by omega, ← List.range'_append_1]
      simp [List.range']
    rw [e, r]
    simp [encByte_length, List.flatMap_cons]
    omega

/-- The packing phase leaves exactly `rowBytes` in the buffer, whatever it held before. -/
theorem lcd_send_row_pack_eq (buf0 : List Nat) (row : Nat) (str : List Nat)
    (h : buf0.length = 68) :
    lcd_send_row_pack buf0 row str = ⟨rowBytes row str, 68, List.range 68⟩ := by
  obtain ⟨a, b, c, d, rest, rfl⟩ := exists_four buf0 (by omega)
  simp only [List.length_cons] at h
  have hp := pack_split [] rest [] a b c d (rowAddr row) 0
  simp only [List.nil_append, List.length_nil] at hp
  have hf := foldl_pack LCD_RS ((List.range 16).map (rowCell str)) (encByte (rowAddr row) 0)
    rest [0, 0 + 1, 0 + 2, 0 + 3] (by simp; omega)
  rw [List.foldl_map] at hf
  have hb : (fun st i => pack_byte_to_buffer st (rowCell str i) LCD_RS) = rowLoopBody str := by
    funext st i; rfl
  rw [hb] at hf
  unfold lcd_send_row_pack
  simp only [hp]
  rw [hf]
  have hd : rest.drop (4 * ((List.range 16).map (rowCell str)).length) = [] := by
    apply List.drop_eq_nil_of_le; simp; omega
  rw [hd]
  simp [rowBytes, encByte_length]
  decide

/-! ## Lemmas on single bytes -/

set_option maxRecDepth 100000

/-- Decoding the first and third byte of an encoding gives the byte back. -/
theorem encByte_decode : ∀ c < 256, ∀ mode < 2,
    ((encByte c mode).getD 0 0 &&& 0xF0) ||| ((encByte c mode).getD 2 0 >>> 4) = c := by
  decide

/-- Control bits of the four bytes of an encoding. -/
theorem encByte_ctrl : ∀ c < 256, ∀ mode < 2, ∀ k < 4,
    (encByte c mode).getD k 0 &&& 0x08 = 0x08 ∧ (encByte c mode).getD k 0 &&& 0x02 = 0
      ∧ (encByte c mode).getD k 0 &&& 0x01 = mode := by
  decide

/-- Payload nibbles of the four bytes of an encoding. -/
theorem encByte_payload : ∀ c < 256, ∀ mode < 2,
    (encByte c mode).getD 0 0 >>> 4 = c >>> 4 ∧ (encByte c mode).getD 1 0 >>> 4 = c >>> 4
      ∧ (encByte c mode).getD 2 0 >>> 4 = c &&& 0x0F
      ∧ (encByte c mode).getD 3 0 >>> 4 = c &&& 0x0F := by
  decide

/-- An enable-high / enable-low pair built from one byte. -/
theorem enable_pair : ∀ x < 256,
    u8 (x ||| LCD_ENABLE) &&& 0x04 = 0x04 ∧ u8 (x &&& bnot32 LCD_ENABLE) &&& 0x04 = 0
      ∧ u8 (x ||| LCD_ENABLE) &&& 0xFB = u8 (x &&& bnot32 LCD_ENABLE) &&& 0xFB := by
  decide

theorem u8_lt (n : Nat) : u8 n < 256 := Nat.mod_lt _ (by decide)

theorem u8_of_lt {n : Nat} (h : n < 256) : u8 n = n := Nat.mod_eq_of_lt h

/-! ## Lemmas on the bytes of a row -/

/-- Byte `k` of group `i` of a sequence of encodings. -/
theorem flatMap_encByte_getD (mode : Nat) (cs : List Nat) :
    ∀ (i k : Nat), i < cs.length → k < 4 →
      (cs.flatMap (fun c => encByte c mode)).getD (4 * i + k) 0
        = (encByte (cs.getD i 0) mode).getD k 0 := by
  induction cs with
  | nil => intro i k hi; simp at hi
  | cons c cs ih =>
    intro i k hi hk
    rw [List.flatMap_cons]
    cases i with
    | zero =>
      rw [List.getD_append _ _ _ _ (by rw [encByte_length]; omega),
        show 4 * 0 + k = k by omega]
      rfl
    | succ i =>
      rw [List.getD_append_right _ _ _ _ (by rw [encByte_length]; omega), encByte_length,
        show 4 * (i + 1) + k - 4 = 4 * i + k by omega, List.getD_cons_succ]
      exact ih i k (by simpa using hi) hk

theorem rowBytes_length (row : Nat) (str : List Nat) : (rowBytes row str).length = 68 := by
  simp [rowBytes, List.range, List.range.loop, encByte_length]

/-- Bytes 0..3 of a row: the encoding of the address command, in command mode. -/
theorem rowBytes_getD_addr (row : Nat) (str : List Nat) (k : Nat) (hk : k < 4) :
    (rowBytes row str).getD k 0 = (encByte (rowAddr row) 0).getD k 0 := by
  unfold rowBytes
  rw [List.getD_append _ _ _ _ (by rw [encByte_length]; exact hk)]

/-- Bytes `4 + 4 * i .. 4 + 4 * i + 3` of a row: the encoding of cell `i`, in data mode. -/
theorem rowBytes_getD_cell (row : Nat) (str : List Nat) (i k : Nat) (hi : i < 16)
    (hk : k < 4) :
    (rowBytes row str).getD (4 + 4 * i + k) 0 = (encByte (rowCell str i) LCD_RS).getD k 0 := by
  unfold rowBytes
  rw [List.getD_append_right _ _ _ _ (by rw [encByte_length]; omega), encByte_length,
    show 4 + 4 * i + k - 4 = 4 * i + k by omega,
    flatMap_encByte_getD LCD_RS _ i k (by simpa using hi) hk]
  congr 2
  rw [List.getD_eq_getElem _ _ (by simpa using hi)]
  simp

theorem rowAddr_eq (row : Nat) : rowAddr row = if row = 0 then 0x80 else 0xC0 := by
  unfold rowAddr
  split <;> rfl

theorem rowAddr_lt (row : Nat) : rowAddr row < 256 := u8_lt _

theorem rowCell_lt (str : List Nat) (i : Nat) : rowCell str i < 256 := by
  unfold rowCell charAt
  split <;> exact u8_lt _

/-! ## Lemmas on strings -/

theorem getD_lt_of_forall (str : List Nat) (h : ∀ c ∈ str, c < 256) (i : Nat) :
    str.getD i 0 < 256 := by
  rcases Nat.lt_or_ge i str.length with hi | hi
  · rw [List.getD_eq_getElem _ _ hi]
    exact h _ (List.getElem_mem _)
  · rw [List.getD_eq_default _ _ hi]
    decide

theorem strlen_le_length (str : List Nat) : strlen str ≤ str.length := by
  induction str with
  | nil => simp [strlen]
  | cons c cs ih =>
    unfold strlen
    split
    · simp
    · simp; exact ih

/-- Whether `i` is below `strlen` only depends on the bytes up to index `i`. -/
theorem lt_strlen_take (str : List Nat) :
    ∀ (n i : Nat), i < n → (i < strlen (str.take n) ↔ i < strlen str) := by
  induction str with
  | nil => intro n i _; simp
  | cons c cs ih =>
    intro n i hin
    cases n with
    | zero => omega
    | succ n =>
      rw [List.take_succ_cons]
      unfold strlen
      by_cases hc : c = 0
      · simp [hc]
      · simp only [hc, if_false]
        cases i with
        | zero => simp
        | succ i =>
          have := ih n i (by omega)
          omega

theorem rowCell_take (str : List Nat) (i : Nat) (hi : i < 16) :
    rowCell (str.take 16) i = rowCell str i := by
  unfold rowCell charAt
  have h1 := lt_strlen_take str 16 i hi
  have h2 : (str.take 16).getD i 0 = str.getD i 0 := by
    simp [List.getElem?_take_of_lt hi]
  by_cases h : i < strlen str
  · rw [if_pos h, if_pos (h1.mpr h), h2]
  · rw [if_neg h, if_neg (fun h' => h (h1.mp h'))]

/-- The bytes of a row only depend on the first sixteen bytes of the string. -/
theorem rowBytes_take (row : Nat) (str : List Nat) :
    rowBytes row (str.take 16) = rowBytes row str := by
  unfold rowBytes
  congr 2
  apply List.map_congr_left
  intro i hi
  exact rowCell_take str i (List.mem_range.mp hi)

/-- Decoding cell `i` of the packed buffer gives the character chosen for that cell. -/
theorem decodeCell_pack (buf0 : List Nat) (row : Nat) (str : List Nat)
    (hbuf : buf0.length = 68) (i : Nat) (hi : i < 16) :
    decodeCell (lcd_send_row_pack buf0 row str).buf i = rowCell str i := by
  rw [lcd_send_row_pack_eq buf0 row str hbuf]
  unfold decodeCell
  have h0 := rowBytes_getD_cell row str i 0 hi (by decide)
  have h2 := rowBytes_getD_cell row str i 2 hi (by decide)
  rw [Nat.add_zero] at h0
  rw [h0, h2]
  exact encByte_decode _ (rowCell_lt str i) 1 (by decide)

/-- Byte `j` of a row is byte `j % 4` of the encoding of its group: the address command in
command mode for group 0, a character cell in data mode for the others. -/
theorem rowBytes_getD_group (row : Nat) (str : List Nat) (j : Nat) (hj : j < 68) :
    (rowBytes row str).getD j 0
      = if j < 4 then (encByte (rowAddr row) 0).getD (j % 4) 0
        else (encByte (rowCell str (j / 4 - 1)) LCD_RS).getD (j % 4) 0 := by
  split
  · rename_i h
    rw [Nat.mod_eq_of_lt h]
    exact rowBytes_getD_addr row str j h
  · have h := rowBytes_getD_cell row str (j / 4 - 1) (j % 4) (by omega)
      (Nat.mod_lt _ (by decide))
    rw [show 4 + 4 * (j / 4 - 1) + j % 4 = j by omega] at h
    exact h

/-- Effect of `pack_byte_to_buffer` at an arbitrary in-range index. -/
theorem pack_at (buf ws : List Nat) (idx val mode : Nat) (hidx : idx + 4 ≤ buf.length) :
    ∃ pre old rest, pre.length = idx ∧ old.length = 4 ∧ buf = pre ++ old ++ rest ∧
      pack_byte_to_buffer ⟨buf, idx, ws⟩ val mode
        = ⟨pre ++ encByte val mode ++ rest, idx + 4, ws ++ [idx, idx + 1, idx + 2, idx + 3]⟩ := by
  have hpre : (buf.take idx).length = idx := by simp; omega
  obtain ⟨a, b, c, d, rest, hrest⟩ := exists_four (buf.drop idx) (by simp; omega)
  have hsplit : buf = buf.take idx ++ a :: b :: c :: d :: rest := by
    rw [← hrest, List.take_append_drop]
  refine ⟨buf.take idx, [a, b, c, d], rest, hpre, rfl, by simpa using hsplit, ?_⟩
  have h := pack_split (buf.take idx) rest ws a b c d val mode
  rw [← hsplit, hpre] at h
  rw [h]
  simp [encByte_length, hpre]

/-- Bytes of the buffer after `pack_byte_to_buffer`. -/
theorem pack_getD (buf ws : List Nat) (idx val mode : Nat) (hidx : idx + 4 ≤ buf.length) :
    (∀ k, k < 4 → (pack_byte_to_buffer ⟨buf, idx, ws⟩ val mode).buf.getD (idx + k) 0
        = (encByte val mode).getD k 0)
      ∧ (∀ j, j < idx ∨ idx + 4 ≤ j →
          (pack_byte_to_buffer ⟨buf, idx, ws⟩ val mode).buf.getD j 0 = buf.getD j 0)
      ∧ (pack_byte_to_buffer ⟨buf, idx, ws⟩ val mode).buf.length = buf.length := by
  obtain ⟨pre, old, rest, hpre, hold, hbuf, hpack⟩ := pack_at buf ws idx val mode hidx
  rw [hpack]
  subst hbuf
  refine ⟨?_, ?_, ?_⟩
  · intro k hk
    show (pre ++ encByte val mode ++ rest).getD (idx + k) 0 = _
    rw [List.append_assoc, List.getD_append_right _ _ _ _ (by omega), hpre,
      show idx + k - idx = k by omega, List.getD_append _ _ _ _ (by rw [encByte_length]; exact hk)]
  · intro j hj
    show (pre ++ encByte val mode ++ rest).getD j 0 = (pre ++ old ++ rest).getD j 0
    rcases hj with hj | hj
    · rw [List.append_assoc, List.append_assoc, List.getD_append _ _ _ _ (by omega),
        List.getD_append _ _ _ _ (by omega)]
    · rw [List.getD_append_right _ _ _ _ (by simp [encByte_length]; omega),
        List.getD_append_right _ _ _ _ (by simp; omega)]
      simp [encByte_length, hold]
  · simp [encByte_length, hold]

/-- Both pairs of an encoding follow the enable discipline. -/
theorem encByte_enablePair (val mode : Nat) :
    enablePair ((encByte val mode).getD 0 0) ((encByte val mode).getD 1 0)
      ∧ enablePair ((encByte val mode).getD 2 0) ((encByte val mode).getD 3 0) :=
  ⟨enable_pair _ (u8_lt _), enable_pair _ (u8_lt _)⟩

/-! ## Row content (claims C1 to C4) -/

/-- C1: for a string of fewer than 16 characters, cell `i` of the character region of the
buffer built by `lcd_send_row` decodes to `str[i]` for `i` below the length of the string and
to the space character `0x20` for the remaining cells up to 15, whatever the row and the
previous content of the buffer: the sixteen cells are the string, left-aligned and padded
with spaces on the right. -/
theorem send_row_short_string (buf0 : List Nat) (row : Nat) (str : List Nat)
    (hbuf : buf0.length = 68) (hstr : ∀ c ∈ str, c < 256) (hlen : strlen str < 16) :
    (∀ i, i < 16 → decodeCell (lcd_send_row_pack buf0 row str).buf i
        = if i < strlen str then str.getD i 0 else 0x20)
      ∧ (List.range 16).map (decodeCell (lcd_send_row_pack buf0 row str).buf)
          = str.take (strlen str) ++ List.replicate (16 - strlen str) 0x20 := by
  have hcell : ∀ i, i < 16 → decodeCell (lcd_send_row_pack buf0 row str).buf i
      = if i < strlen str then str.getD i 0 else 0x20 := by
    intro i hi
    rw [decodeCell_pack buf0 row str hbuf i hi]
    unfold rowCell charAt
    split
    · exact u8_of_lt (getD_lt_of_forall str hstr i)
    · rfl
  refine ⟨hcell, ?_⟩
  have hle := strlen_le_length str
  apply List.ext_getElem
  · simp; omega
  · intro i h1 h2
    have hi : i < 16 := by simpa using h1
    rw [List.getElem_map, List.getElem_range, hcell i hi]
    by_cases h : i < strlen str
    · rw [if_pos h, List.getElem_append_left (by simp; omega), List.getElem_take,
        List.getD_eq_getElem _ _ (by omega)]
    · rw [if_neg h, List.getElem_append_right (by simp; omega), List.getElem_replicate]

/-- C1, witness: `"Hi"` on row 0 decodes to `"Hi"` followed by 14 spaces. -/
theorem send_row_short_string_witness :
    (List.replicate 68 0xAA).length = 68 ∧ (∀ c ∈ [72, 105], c < 256)
      ∧ strlen [72, 105] < 16
      ∧ (List.range 16).map (decodeCell (lcd_send_row_pack (List.replicate 68 0xAA) 0
            [72, 105]).buf)
          = [72, 105, 32, 32, 32, 32, 32, 32, 32, 32, 32, 32, 32, 32, 32, 32] :=
  ⟨by decide, by decide, by decide,
    (send_row_short_string (List.replicate 68 0xAA) 0 [72, 105] (by decide) (by decide)
      (by decide)).2.trans (by decide)⟩

/-- C2: for a string of at least 16 characters, cell `i` of the character region of the
buffer built by `lcd_send_row` decodes to `str[i]` for every `i` up to 15, and a string that
agrees with it on the first 16 characters yields the same buffer byte for byte, whatever the
previous contents of the two buffers. -/
theorem send_row_long_string (buf0 buf0' : List Nat) (row : Nat) (str str' : List Nat)
    (hbuf : buf0.length = 68) (hbuf' : buf0'.length = 68) (hstr : ∀ c ∈ str, c < 256)
    (hlen : 16 ≤ strlen str) (hagree : str'.take 16 = str.take 16) :
    (∀ i, i < 16 → decodeCell (lcd_send_row_pack buf0 row str).buf i = str.getD i 0)
      ∧ (lcd_send_row_pack buf0' row str').buf = (lcd_send_row_pack buf0 row str).buf := by
  constructor
  · intro i hi
    rw [decodeCell_pack buf0 row str hbuf i hi]
    unfold rowCell charAt
    rw [if_pos (by omega)]
    exact u8_of_lt (getD_lt_of_forall str hstr i)
  · rw [lcd_send_row_pack_eq buf0 row str hbuf, lcd_send_row_pack_eq buf0' row str' hbuf']
    show rowBytes row str' = rowBytes row str
    rw [← rowBytes_take row str', ← rowBytes_take row str, hagree]

/-- C2, witness: `"This is 20 chars!!!"` on row 1 decodes to `"This is 20 chars"`, and gives
the same buffer as `"This is 20 charsXY"`. -/
theorem send_row_long_string_witness :
    (List.replicate 68 0).length = 68 ∧ (List.replicate 68 0xFF).length = 68
      ∧ (∀ c ∈ [84, 104, 105, 115, 32, 105, 115, 32, 50, 48, 32, 99, 104, 97, 114, 115,
            33, 33, 33], c < 256)
      ∧ 16 ≤ strlen [84, 104, 105, 115, 32, 105, 115, 32, 50, 48, 32, 99, 104, 97, 114, 115,
            33, 33, 33]
      ∧ (List.range 16).map (decodeCell (lcd_send_row_pack (List.replicate 68 0) 1
            [84, 104, 105, 115, 32, 105, 115, 32, 50, 48, 32, 99, 104, 97, 114, 115,
              33, 33, 33]).buf)
          = [84, 104, 105, 115, 32, 105, 115, 32, 50, 48, 32, 99, 104, 97, 114, 115]
      ∧ (lcd_send_row_pack (List.replicate 68 0xFF) 1
            [84, 104, 105, 115, 32, 105, 115, 32, 50, 48, 32, 99, 104, 97, 114, 115,
              88, 89]).buf
          = (lcd_send_row_pack (List.replicate 68 0) 1
            [84, 104, 105, 115, 32, 105, 115, 32, 50, 48, 32, 99, 104, 97, 114, 115,
              33, 33, 33]).buf :=
  have h := send_row_long_string (List.replicate 68 0) (List.replicate 68 0xFF) 1
    [84, 104, 105, 115, 32, 105, 115, 32, 50, 48, 32, 99, 104, 97, 114, 115, 33, 33, 33]
    [84, 104, 105, 115, 32, 105, 115, 32, 50, 48, 32, 99, 104, 97, 114, 115, 88, 89]
    (by decide) (by decide) (by decide) (by decide) (by decide)
  ⟨by decide, by decide, by decide, by decide,
    (List.map_congr_left (fun i hi => h.1 i (List.mem_range.mp hi))).trans (by decide), h.2⟩

/-- C3: the packing phase of `lcd_send_row` stores to the indices 0, 1, ..., 67, each exactly
once and to no other index, ends with the write index at 68, and leaves a 68-byte buffer in
which no byte of the previous content remains; the descriptor handed to the bus is that whole
buffer, 68 bytes. -/
theorem send_row_fills_buffer (buf0 buf0' : List Nat) (row : Nat) (str : List Nat)
    (hbuf : buf0.length = 68) (hbuf' : buf0'.length = 68) :
    (lcd_send_row_pack buf0 row str).writes = List.range 68
      ∧ (∀ j, (lcd_send_row_pack buf0 row str).writes.count j = if j < 68 then 1 else 0)
      ∧ (lcd_send_row_pack buf0 row str).idx = 68
      ∧ (lcd_send_row_pack buf0 row str).buf.length = 68
      ∧ rowInfo (lcd_send_row_pack buf0 row str) = (lcd_send_row_pack buf0 row str).buf
      ∧ (rowInfo (lcd_send_row_pack buf0 row str)).length = 68
      ∧ (lcd_send_row_pack buf0' row str).buf = (lcd_send_row_pack buf0 row str).buf := by
  rw [lcd_send_row_pack_eq buf0 row str hbuf, lcd_send_row_pack_eq buf0' row str hbuf']
  have hl := rowBytes_length row str
  refine ⟨rfl, ?_, rfl, hl, ?_, ?_, rfl⟩
  · intro j
    show (List.range 68).count j = _
    split
    · rename_i h
      exact List.count_eq_one_of_mem (List.nodup_range 68) (List.mem_range.mpr h)
    · rename_i h
      exact List.count_eq_zero_of_not_mem (fun hm => h (List.mem_range.mp hm))
  · show (rowBytes row str).take 68 = rowBytes row str
    exact List.take_of_length_le (by omega)
  · show ((rowBytes row str).take 68).length = 68
    rw [List.length_take]; omega

/-- C3, witness: a 19-character string on row 1, over two different previous contents. -/
theorem send_row_fills_buffer_witness :
    (List.replicate 68 0).length = 68 ∧ (List.replicate 68 0xFF).length = 68
      ∧ (lcd_send_row_pack (List.replicate 68 0) 1
          [84, 104, 105, 115, 32, 105, 115, 32, 50, 48, 32, 99, 104, 97, 114, 115,
            33, 33, 33]).idx = 68 :=
  ⟨by decide, by decide,
    (send_row_fills_buffer (List.replicate 68 0) (List.replicate 68 0xFF) 1
      [84, 104, 105, 115, 32, 105, 115, 32, 50, 48, 32, 99, 104, 97, 114, 115, 33, 33, 33]
      (by decide) (by decide)).2.2.1⟩

/-- C4: the first four bytes of the buffer built by `lcd_send_row` decode to the address-set
command `0x80` when `row` is 0 and to `0xC0` for every other value of `row`: 1 and 2..255
alike. -/
theorem send_row_address (buf0 : List Nat) (row : Nat) (str : List Nat)
    (hbuf : buf0.length = 68) :
    decodeAddr (lcd_send_row_pack buf0 row str).buf = if row = 0 then 0x80 else 0xC0 := by
  rw [lcd_send_row_pack_eq buf0 row str hbuf]
  unfold decodeAddr
  rw [rowBytes_getD_addr row str 0 (by decide), rowBytes_getD_addr row str 2 (by decide),
    encByte_decode _ (rowAddr_lt row) 0 (by decide)]
  exact rowAddr_eq row

/-- C4, witness: rows 0, 1 and 7 with the string `"Hi"`. -/
theorem send_row_address_witness :
    (List.replicate 68 0xAA).length = 68
      ∧ decodeAddr (lcd_send_row_pack (List.replicate 68 0xAA) 0 [72, 105]).buf = 0x80
      ∧ decodeAddr (lcd_send_row_pack (List.replicate 68 0xAA) 1 [72, 105]).buf = 0xC0
      ∧ decodeAddr (lcd_send_row_pack (List.replicate 68 0xAA) 7 [72, 105]).buf = 0xC0 :=
  ⟨by decide,
    send_row_address (List.replicate 68 0xAA) 0 [72, 105] (by decide),
    send_row_address (List.replicate 68 0xAA) 1 [72, 105] (by decide),
    send_row_address (List.replicate 68 0xAA) 7 [72, 105] (by decide)⟩

/-! ## Wire format (claims C5 to C7) -/

/-- C5: for a byte `val` and a mode of 0 (command) or 1 (`LCD_RS`, character data),
`pack_byte_to_buffer` stores to the four indices `idx .. idx + 3` only, advances `idx` by 4
and leaves every other byte of the buffer as it was; bytes 0 and 1 carry the high nibble of
`val` in bits 7..4, bytes 2 and 3 carry its low nibble in bits 7..4, and in all four bytes
the backlight bit `0x08` is set, the RW bit `0x02` is clear and the RS bit `0x01` equals
`mode`. -/
theorem pack_byte_layout (buf ws : List Nat) (idx val mode : Nat) (hval : val < 256)
    (hmode : mode = 0 ∨ mode = LCD_RS) (hidx : idx + 4 ≤ buf.length) :
    (pack_byte_to_buffer ⟨buf, idx, ws⟩ val mode).idx = idx + 4
      ∧ (pack_byte_to_buffer ⟨buf, idx, ws⟩ val mode).writes
          = ws ++ [idx, idx + 1, idx + 2, idx + 3]
      ∧ (pack_byte_to_buffer ⟨buf, idx, ws⟩ val mode).buf.length = buf.length
      ∧ (∀ j, j < idx ∨ idx + 4 ≤ j →
          (pack_byte_to_buffer ⟨buf, idx, ws⟩ val mode).buf.getD j 0 = buf.getD j 0)
      ∧ (pack_byte_to_buffer ⟨buf, idx, ws⟩ val mode).buf.getD idx 0 >>> 4 = val >>> 4
      ∧ (pack_byte_to_buffer ⟨buf, idx, ws⟩ val mode).buf.getD (idx + 1) 0 >>> 4 = val >>> 4
      ∧ (pack_byte_to_buffer ⟨buf, idx, ws⟩ val mode).buf.getD (idx + 2) 0 >>> 4
          = val &&& 0x0F
      ∧ (pack_byte_to_buffer ⟨buf, idx, ws⟩ val mode).buf.getD (idx + 3) 0 >>> 4
          = val &&& 0x0F
      ∧ (∀ k, k < 4 →
          (pack_byte_to_buffer ⟨buf, idx, ws⟩ val mode).buf.getD (idx + k) 0
              &&& LCD_BACKLIGHT = LCD_BACKLIGHT
            ∧ (pack_byte_to_buffer ⟨buf, idx, ws⟩ val mode).buf.getD (idx + k) 0
              &&& LCD_RW = 0
            ∧ (pack_byte_to_buffer ⟨buf, idx, ws⟩ val mode).buf.getD (idx + k) 0
              &&& LCD_RS = mode) := by
  have hm : mode < 2 := by
    rcases hmode with h | h <;> rw [h] <;> decide
  obtain ⟨hk, hother, hlen⟩ := pack_getD buf ws idx val mode hidx
  obtain ⟨_, _, _, _, _, _, hpack⟩ := pack_at buf ws idx val mode hidx
  have hp := encByte_payload val hval mode hm
  have h0 := hk 0 (by decide)
  rw [Nat.add_zero] at h0
  refine ⟨by rw [hpack], by rw [hpack], hlen, hother, ?_, ?_, ?_, ?_, ?_⟩
  · rw [h0]; exact hp.1
  · rw [hk 1 (by decide)]; exact hp.2.1
  · rw [hk 2 (by decide)]; exact hp.2.2.1
  · rw [hk 3 (by decide)]; exact hp.2.2.2
  · intro k hk4
    rw [hk k hk4]
    exact encByte_ctrl val hval mode hm k hk4

/-- C5, witness: the character `'H'` (0x48) packed in data mode at index 4 of a 68-byte
buffer gives the bytes `0x4D 0x49 0x8D 0x89`. -/
theorem pack_byte_layout_witness :
    72 < 256 ∧ (LCD_RS = 0 ∨ LCD_RS = LCD_RS) ∧ 4 + 4 ≤ (List.replicate 68 0).length
      ∧ (pack_byte_to_buffer ⟨List.replicate 68 0, 4, []⟩ 72 LCD_RS).idx = 4 + 4
      ∧ (pack_byte_to_buffer ⟨List.replicate 68 0, 4, []⟩ 72 LCD_RS).buf.take 8
          = [0, 0, 0, 0, 0x4D, 0x49, 0x8D, 0x89] :=
  ⟨by decide, Or.inr rfl, by decide,
    (pack_byte_layout (List.replicate 68 0) [] 4 72 LCD_RS (by decide) (Or.inr rfl)
      (by decide)).1, by decide⟩

/-- C6: whatever the nibble, value and mode, the 2-byte packet formed by `lcd_write_nibble`
(the only payload it ever puts on the bus), each of the two consecutive pairs stored by
`pack_byte_to_buffer`, and every pair at offsets `2k`, `2k + 1` (`k` up to 33) of the buffer
built by `lcd_send_row` have the enable bit `0x04` set in the first byte and clear in the
second, the two bytes being equal on the other seven bits. -/
theorem enable_high_then_low (nibble val mode : Nat) (buf ws : List Nat) (idx : Nat)
    (buf0 : List Nat) (row : Nat) (str : List Nat)
    (hidx : idx + 4 ≤ buf.length) (hbuf : buf0.length = 68) :
    ((lcd_write_nibble_pkt nibble mode).length = 2
        ∧ enablePair ((lcd_write_nibble_pkt nibble mode).getD 0 0)
            ((lcd_write_nibble_pkt nibble mode).getD 1 0))
      ∧ (∀ (w : World) (data : List Nat) (t : Int),
          Event.transmit data t ∈ (lcd_write_nibble w nibble mode).2.trace →
            Event.transmit data t ∈ w.trace ∨ data = lcd_write_nibble_pkt nibble mode)
      ∧ enablePair ((pack_byte_to_buffer ⟨buf, idx, ws⟩ val mode).buf.getD idx 0)
          ((pack_byte_to_buffer ⟨buf, idx, ws⟩ val mode).buf.getD (idx + 1) 0)
      ∧ enablePair ((pack_byte_to_buffer ⟨buf, idx, ws⟩ val mode).buf.getD (idx + 2) 0)
          ((pack_byte_to_buffer ⟨buf, idx, ws⟩ val mode).buf.getD (idx + 3) 0)
      ∧ (∀ k, k < 34 →
          enablePair ((lcd_send_row_pack buf0 row str).buf.getD (2 * k) 0)
            ((lcd_send_row_pack buf0 row str).buf.getD (2 * k + 1) 0)) := by
  refine ⟨⟨rfl, enable_pair _ (u8_lt _)⟩, ?_, ?_, ?_, ?_⟩
  · intro w data t
    unfold lcd_write_nibble lcd_i2c_tx xSemaphoreTake i2c_master_transmit xSemaphoreGive
      ESP_LOGE esp_rom_delay_us World.emit
    cases w.takeOracle w.nTake <;> simp only <;> split_ifs <;> simp <;> tauto
  · obtain ⟨hk, -, -⟩ := pack_getD buf ws idx val mode hidx
    have h0 := hk 0 (by decide)
    rw [Nat.add_zero] at h0
    rw [h0, hk 1 (by decide)]
    exact (encByte_enablePair val mode).1
  · obtain ⟨hk, -, -⟩ := pack_getD buf ws idx val mode hidx
    rw [hk 2 (by decide), hk 3 (by decide)]
    exact (encByte_enablePair val mode).2
  · intro k hk
    rw [lcd_send_row_pack_eq buf0 row str hbuf]
    show enablePair ((rowBytes row str).getD (2 * k) 0) ((rowBytes row str).getD (2 * k + 1) 0)
    rw [rowBytes_getD_group row str (2 * k) (by omega),
      rowBytes_getD_group row str (2 * k + 1) (by omega)]
    have hdiv : (2 * k + 1) / 4 = 2 * k / 4 := by omega
    have hpair : ∀ c m, enablePair ((encByte c m).getD (2 * k % 4) 0)
        ((encByte c m).getD ((2 * k + 1) % 4) 0) := by
      intro c m
      rcases Nat.mod_two_eq_zero_or_one k with hpar | hpar
      · rw [show 2 * k % 4 = 0 by omega, show (2 * k + 1) % 4 = 1 by omega]
        exact (encByte_enablePair c m).1
      · rw [show 2 * k % 4 = 2 by omega, show (2 * k + 1) % 4 = 3 by omega]
        exact (encByte_enablePair c m).2
    by_cases h4 : 2 * k < 4
    · rw [if_pos h4, if_pos (show 2 * k + 1 < 4 by omega)]
      exact hpair _ _
    · rw [if_neg h4, if_neg (show ¬ 2 * k + 1 < 4 by omega), hdiv]
      exact hpair _ _

/-- C6, witness: the reset nibble `0x30` in command mode, the character `'H'` packed at
index 4, and the pair at offsets 4, 5 of the row `"Hi"`. -/
theorem enable_high_then_low_witness :
    4 + 4 ≤ (List.replicate 68 0).length ∧ (List.replicate 68 0xAA).length = 68
      ∧ lcd_write_nibble_pkt 0x30 0 = [0x3C, 0x38]
      ∧ enablePair ((lcd_send_row_pack (List.replicate 68 0xAA) 0 [72, 105]).buf.getD (2 * 2) 0)
          ((lcd_send_row_pack (List.replicate 68 0xAA) 0 [72, 105]).buf.getD (2 * 2 + 1) 0) :=
  ⟨by decide, by decide, by decide,
    (enable_high_then_low 0x30 72 0 (List.replicate 68 0) [] 4 (List.replicate 68 0xAA) 0
      [72, 105] (by decide) (by decide)).2.2.2.2 2 (by decide)⟩

/-- C7: in the buffer built by `lcd_send_row`, the first four bytes (the address-set command)
have the RS bit `0x01` clear, each of the other 64 bytes (the 16 character cells, padding
included) has it set, and all 68 bytes have the backlight bit `0x08` set and the RW bit
`0x02` clear. -/
theorem send_row_mode_bits (buf0 : List Nat) (row : Nat) (str : List Nat)
    (hbuf : buf0.length = 68) :
    (∀ j, j < 4 → (lcd_send_row_pack buf0 row str).buf.getD j 0 &&& LCD_RS = 0)
      ∧ (∀ j, 4 ≤ j → j < 68 →
          (lcd_send_row_pack buf0 row str).buf.getD j 0 &&& LCD_RS = LCD_RS)
      ∧ (∀ j, j < 68 →
          (lcd_send_row_pack buf0 row str).buf.getD j 0 &&& LCD_BACKLIGHT = LCD_BACKLIGHT
            ∧ (lcd_send_row_pack buf0 row str).buf.getD j 0 &&& LCD_RW = 0) := by
  rw [lcd_send_row_pack_eq buf0 row str hbuf]
  have hmod : ∀ j, j % 4 < 4 := fun j => Nat.mod_lt _ (by decide)
  refine ⟨?_, ?_, ?_⟩
  · intro j hj
    show (rowBytes row str).getD j 0 &&& LCD_RS = 0
    rw [rowBytes_getD_group row str j (by omega), if_pos hj]
    exact (encByte_ctrl _ (rowAddr_lt row) 0 (by decide) _ (hmod j)).2.2
  · intro j hj4 hj
    show (rowBytes row str).getD j 0 &&& LCD_RS = LCD_RS
    rw [rowBytes_getD_group row str j hj, if_neg (by omega)]
    exact (encByte_ctrl _ (rowCell_lt str _) LCD_RS (by decide) _ (hmod j)).2.2
  · intro j hj
    show (rowBytes row str).getD j 0 &&& LCD_BACKLIGHT = LCD_BACKLIGHT
      ∧ (rowBytes row str).getD j 0 &&& LCD_RW = 0
    rw [rowBytes_getD_group row str j hj]
    split
    · have h := encByte_ctrl _ (rowAddr_lt row) 0 (by decide) _ (hmod j)
      exact ⟨h.1, h.2.1⟩
    · have h := encByte_ctrl _ (rowCell_lt str (j / 4 - 1)) LCD_RS (by decide) _ (hmod j)
      exact ⟨h.1, h.2.1⟩

/-- C7, witness: bytes 3 and 4 of the row `"Hi"`: the last byte of the address command and
the first byte of the first character. -/
theorem send_row_mode_bits_witness :
    (List.replicate 68 0xAA).length = 68
      ∧ (lcd_send_row_pack (List.replicate 68 0xAA) 0 [72, 105]).buf.getD 3 0 &&& LCD_RS = 0
      ∧ (lcd_send_row_pack (List.replicate 68 0xAA) 0 [72, 105]).buf.getD 4 0 &&& LCD_RS
          = LCD_RS :=
  ⟨by decide,
    (send_row_mode_bits (List.replicate 68 0xAA) 0 [72, 105] (by decide)).1 3 (by decide),
    (send_row_mode_bits (List.replicate 68 0xAA) 0 [72, 105] (by decide)).2.1 4 (by decide)
      (by decide)⟩

/-! ## Guard and bus (claims C8 to C10) -/

/-- C8: `lcd_send_row` returns `ESP_ERR_TIMEOUT` when the guard is not granted within the
50 ms budget, and then the only operation it has performed is the failed take: no bus
transmission; when the guard is granted it returns the result of the bus transmission. It
returns nothing else. -/
theorem send_row_result (w : World) (buf0 : List Nat) (row : Nat) (str : List Nat) :
    (lcd_send_row w buf0 row str).1
        = (if w.takeOracle w.nTake = true then w.txOracle w.nTx else ESP_ERR_TIMEOUT)
      ∧ (if w.takeOracle w.nTake = true then
          (lcd_send_row w buf0 row str).2.nTx = w.nTx + 1
        else
          (lcd_send_row w buf0 row str).2.trace = w.trace ++ [Event.take 50 false]
            ∧ (lcd_send_row w buf0 row str).2.nTx = w.nTx) := by
  unfold lcd_send_row xSemaphoreTake i2c_master_multi_buffer_transmit xSemaphoreGive World.emit
  cases h : w.takeOracle w.nTake <;> simp

/-- C9: when the guard is granted, `lcd_send_row` performs exactly three operations: one
take with the 50 ms budget, one multi-buffer transmission made of a single descriptor that
holds the entire 68-byte buffer, with a hardware timeout of 100 ms, and one give; one take
and one transmission are counted, so the row is not split. -/
theorem send_row_single_transaction (w : World) (buf0 : List Nat) (row : Nat)
    (str : List Nat) (hgrant : w.takeOracle w.nTake = true) (hbuf : buf0.length = 68) :
    (lcd_send_row w buf0 row str).2.trace
        = w.trace ++ [Event.take 50 true,
            Event.transmitMulti [(lcd_send_row_pack buf0 row str).buf] 100, Event.give]
      ∧ (lcd_send_row_pack buf0 row str).buf.length = 68
      ∧ (lcd_send_row w buf0 row str).2.nTake = w.nTake + 1
      ∧ (lcd_send_row w buf0 row str).2.nTx = w.nTx + 1 := by
  have hinfo : rowInfo (lcd_send_row_pack buf0 row str) = (lcd_send_row_pack buf0 row str).buf := by
    rw [lcd_send_row_pack_eq buf0 row str hbuf]
    exact List.take_of_length_le (by rw [rowBytes_length])
  have hlen : (lcd_send_row_pack buf0 row str).buf.length = 68 := by
    rw [lcd_send_row_pack_eq buf0 row str hbuf]
    exact rowBytes_length row str
  unfold lcd_send_row xSemaphoreTake i2c_master_multi_buffer_transmit xSemaphoreGive World.emit
  simp [hgrant, hinfo, hlen]

/-- C9, witness: the row `"Hi"` sent in a fresh world in which the guard is free and the bus
works. -/
theorem send_row_single_transaction_witness :
    (World.init (fun _ => true) (fun _ => ESP_OK)).takeOracle
        (World.init (fun _ => true) (fun _ => ESP_OK)).nTake = true
      ∧ (List.replicate 68 0xAA).length = 68
      ∧ (lcd_send_row (World.init (fun _ => true) (fun _ => ESP_OK))
          (List.replicate 68 0xAA) 0 [72, 105]).2.trace
        = [Event.take 50 true,
            Event.transmitMulti [[140, 136, 12, 8, 77, 73, 141, 137, 109, 105, 157, 153,
              45, 41, 13, 9, 45, 41, 13, 9, 45, 41, 13, 9, 45, 41, 13, 9, 45, 41, 13, 9,
              45, 41, 13, 9, 45, 41, 13, 9, 45, 41, 13, 9, 45, 41, 13, 9, 45, 41, 13, 9,
              45, 41, 13, 9, 45, 41, 13, 9, 45, 41, 13, 9, 45, 41, 13, 9]] 100,
            Event.give] :=
  ⟨rfl, by decide,
    (send_row_single_transaction (World.init (fun _ => true) (fun _ => ESP_OK))
      (List.replicate 68 0xAA) 0 [72, 105] rfl (by decide)).1.trans (by decide)⟩

/-- C10: a caller that does not hold the guard on entry does not hold it on return from
`lcd_i2c_tx` or from `lcd_send_row`, on any path. When the take is granted the operations
are the take, the transmission, (for `lcd_i2c_tx`, a log line if the transmission failed) and
one give, in this order; when the take times out there is neither a transmission nor a give.
Replaying the operations confirms that every transmission and every give happens while the
guard is held. -/
theorem guard_released_on_every_path (w : World) (data buf0 : List Nat) (row : Nat)
    (str : List Nat) (hfree : w.held = false) :
    ((lcd_i2c_tx w data).2.held = false
        ∧ (lcd_i2c_tx w data).2.trace = w.trace ++
            (if w.takeOracle w.nTake = true then
              [Event.take 100 true, Event.transmit data (-1)]
                ++ (if w.txOracle w.nTx ≠ ESP_OK then [Event.logE LogMsg.transmitFailed]
                    else [])
                ++ [Event.give]
            else [Event.take 100 false, Event.logE LogMsg.mutexTimeout])
        ∧ guardReplay false ((lcd_i2c_tx w data).2.trace.drop w.trace.length) = some false)
      ∧ ((lcd_send_row w buf0 row str).2.held = false
        ∧ (lcd_send_row w buf0 row str).2.trace = w.trace ++
            (if w.takeOracle w.nTake = true then
              [Event.take 50 true,
                Event.transmitMulti [rowInfo (lcd_send_row_pack buf0 row str)] 100,
                Event.give]
            else [Event.take 50 false])
        ∧ guardReplay false ((lcd_send_row w buf0 row str).2.trace.drop w.trace.length)
            = some false) := by
  constructor
  · unfold lcd_i2c_tx xSemaphoreTake i2c_master_transmit xSemaphoreGive ESP_LOGE World.emit
    cases hg : w.takeOracle w.nTake
    · simp [hfree, guardReplay]
    · by_cases he : w.txOracle w.nTx = ESP_OK <;> simp [he, guardReplay]
  · unfold lcd_send_row xSemaphoreTake i2c_master_multi_buffer_transmit xSemaphoreGive
      World.emit
    cases hg : w.takeOracle w.nTake <;> simp [hfree, guardReplay]

/-- C10, witness: the guard is free but the bus fails with `ESP_ERR_TIMEOUT`: the guard is
given back after the failed transmission. -/
theorem guard_released_on_every_path_witness :
    (World.init (fun _ => true) (fun _ => ESP_ERR_TIMEOUT)).held = false
      ∧ (lcd_i2c_tx (World.init (fun _ => true) (fun _ => ESP_ERR_TIMEOUT))
          [0x3C, 0x38]).2.held = false
      ∧ (lcd_i2c_tx (World.init (fun _ => true) (fun _ => ESP_ERR_TIMEOUT))
          [0x3C, 0x38]).2.trace
        = [Event.take 100 true, Event.transmit [0x3C, 0x38] (-1),
            Event.logE LogMsg.transmitFailed, Event.give] :=
  ⟨rfl,
    (guard_released_on_every_path (World.init (fun _ => true) (fun _ => ESP_ERR_TIMEOUT))
      [0x3C, 0x38] (List.replicate 68 0) 0 [] rfl).1.1,
    (guard_released_on_every_path (World.init (fun _ => true) (fun _ => ESP_ERR_TIMEOUT))
      [0x3C, 0x38] (List.replicate 68 0) 0 [] rfl).1.2.1.trans (by decide)⟩

/-! ## Lemmas on `lcd_write_nibble` and `lcd_send_byte` -/

/-- Result and effect of `lcd_write_nibble`, whatever the environment answers. -/
theorem lcd_write_nibble_eq (w : World) (nibble mode : Nat) :
    lcd_write_nibble w nibble mode
      = ((if w.takeOracle w.nTake = true then w.txOracle w.nTx else ESP_ERR_TIMEOUT),
          { held := if w.takeOracle w.nTake = true then false else w.held
            takeOracle := w.takeOracle
            txOracle := w.txOracle
            nTake := w.nTake + 1
            nTx := if w.takeOracle w.nTake = true then w.nTx + 1 else w.nTx
            trace := w.trace
              ++ nibbleOps (w.takeOracle w.nTake) (w.txOracle w.nTx) nibble mode }) := by
  unfold lcd_write_nibble lcd_i2c_tx xSemaphoreTake i2c_master_transmit xSemaphoreGive
    ESP_LOGE esp_rom_delay_us World.emit nibbleOps
  cases hg : w.takeOracle w.nTake
  · simp [ESP_ERR_TIMEOUT, ESP_OK]
  · by_cases he : w.txOracle w.nTx = ESP_OK <;> simp [he]

theorem reaches_emit (w : World) (e : Event) : Reaches w (w.emit e) [e] 0 0 := by
  refine ⟨rfl, rfl, rfl, Nat.le_refl _, Nat.le_refl _, Nat.le_refl _, ?_⟩
  rintro (⟨k, h1, h2, -⟩ | ⟨k, h1, h2, -⟩)
  · exact absurd (show k < w.nTake from h2) (by omega)
  · exact absurd (show k < w.nTx from h2) (by omega)

theorem reaches_trans {w w1 w2 : World} {es es' : List Event} {a b c d : Nat}
    (h : Reaches w w1 es a b) (h' : Reaches w1 w2 es' c d) :
    Reaches w w2 (es ++ es') (a + c) (b + d) := by
  obtain ⟨ht, hx, htr, hlo, hhi, hnx, hlog⟩ := h
  obtain ⟨ht', hx', htr', hlo', hhi', hnx', hlog'⟩ := h'
  refine ⟨ht'.trans ht, hx'.trans hx, ?_, by omega, by omega, by omega, ?_⟩
  · rw [htr', htr, List.append_assoc]
  · intro hfail
    rw [List.mem_append]
    rcases hfail with ⟨k, h1, h2, h3⟩ | ⟨k, h1, h2, h3⟩
    · by_cases hk : k < w1.nTake
      · exact Or.inl (hlog (Or.inl ⟨k, h1, hk, h3⟩))
      · exact Or.inr (hlog' (Or.inl ⟨k, by omega, h2, by rw [ht]; exact h3⟩))
    · by_cases hk : k < w1.nTx
      · exact Or.inl (hlog (Or.inr ⟨k, h1, hk, h3⟩))
      · exact Or.inr (hlog' (Or.inr ⟨k, by omega, h2, by rw [hx]; exact h3⟩))

theorem reaches_mono {w w' : World} {es : List Event} {a b a' b' : Nat}
    (h : Reaches w w' es a b) (ha : a' ≤ a) (hb : b ≤ b') : Reaches w w' es a' b' := by
  obtain ⟨ht, hx, htr, hlo, hhi, hnx, hlog⟩ := h
  exact ⟨ht, hx, htr, by omega, by omega, hnx, hlog⟩

/-- One `lcd_write_nibble` call makes one take and logs its failure. -/
theorem reaches_nibble (w : World) (nibble mode : Nat) :
    Reaches w (lcd_write_nibble w nibble mode).2
      (nibbleOps (w.takeOracle w.nTake) (w.txOracle w.nTx) nibble mode) 1 1 := by
  rw [lcd_write_nibble_eq]
  refine ⟨rfl, rfl, rfl, Nat.le_refl _, Nat.le_refl _, ?_, ?_⟩
  · show w.nTx ≤ if w.takeOracle w.nTake = true then w.nTx + 1 else w.nTx
    split <;> omega
  · show ((∃ k, w.nTake ≤ k ∧ k < w.nTake + 1 ∧ w.takeOracle k = false)
        ∨ (∃ k, w.nTx ≤ k
            ∧ k < (if w.takeOracle w.nTake = true then w.nTx + 1 else w.nTx)
            ∧ w.txOracle k ≠ ESP_OK)) → _
    rintro (⟨k, h1, h2, h3⟩ | ⟨k, h1, h2, h3⟩)
    · have hk : k = w.nTake := by omega
      subst hk
      simp [nibbleOps, h3]
    · by_cases hg : w.takeOracle w.nTake = true
      · rw [if_pos hg] at h2
        have hk : k = w.nTx := by omega
        subst hk
        simp [nibbleOps, hg, h3]
      · rw [if_neg hg] at h2
        omega

/-- One `lcd_send_byte` call makes one or two takes and logs a failure. -/
theorem reaches_byte (w : World) (val mode : Nat) :
    ∃ es, Reaches w (lcd_send_byte w val mode).2 es 1 2 := by
  have r1 := reaches_nibble w (u8 (val &&& 0xF0)) mode
  rcases h1 : lcd_write_nibble w (u8 (val &&& 0xF0)) mode with ⟨e1, w1⟩
  rw [h1] at r1
  have r2 := reaches_nibble w1 (u8 ((val <<< 4) &&& 0xF0)) mode
  rcases h2 : lcd_write_nibble w1 (u8 ((val <<< 4) &&& 0xF0)) mode with ⟨e2, w2⟩
  rw [h2] at r2
  simp only [lcd_send_byte, h1, h2]
  by_cases he1 : e1 = ESP_OK
  · by_cases he2 : e2 = ESP_OK
    · simp only [he1, he2, ne_eq, not_true_eq_false, if_false]
      exact ⟨_, reaches_mono (reaches_trans r1 r2) (by omega) (by omega)⟩
    · simp only [he1, he2, ne_eq, not_true_eq_false, not_false_eq_true, if_false, if_true]
      exact ⟨_, reaches_mono (reaches_trans (reaches_trans r1 r2) (reaches_emit w2 _))
        (by omega) (by omega)⟩
  · simp only [he1, ne_eq, not_false_eq_true, if_true]
    exact ⟨_, reaches_mono (reaches_trans r1 (reaches_emit w1 _)) (by omega) (by omega)⟩

theorem reaches_held (w : World) (b : Bool) : Reaches w { w with held := b } [] 0 0 := by
  refine ⟨rfl, rfl, (List.append_nil _).symm, Nat.le_refl _, Nat.le_refl _, Nat.le_refl _, ?_⟩
  rintro (⟨k, h1, h2, -⟩ | ⟨k, h1, h2, -⟩)
  · exact absurd (show k < w.nTake from h2) (by omega)
  · exact absurd (show k < w.nTx from h2) (by omega)

theorem reaches_then_emit {w w1 : World} {es : List Event} {a b : Nat}
    (h : Reaches w w1 es a b) (e : Event) : Reaches w (w1.emit e) (es ++ [e]) a b :=
  reaches_trans h (reaches_emit w1 e)

theorem reaches_then_nibble {w w1 : World} {es : List Event} {a b : Nat}
    (h : Reaches w w1 es a b) (nibble mode : Nat) :
    ∃ es', Reaches w (lcd_write_nibble w1 nibble mode).2 (es ++ es') (a + 1) (b + 1) :=
  ⟨_, reaches_trans h (reaches_nibble w1 nibble mode)⟩

theorem reaches_then_byte {w w1 : World} {es : List Event} {a b : Nat}
    (h : Reaches w w1 es a b) (val mode : Nat) :
    ∃ es', Reaches w (lcd_send_byte w1 val mode).2 (es ++ es') (a + 1) (b + 2) := by
  obtain ⟨es', h'⟩ := reaches_byte w1 val mode
  exact ⟨es', reaches_trans h h'⟩

/-- The command sequence of `lcd_i2c_init` runs to its end whatever the bus answers. -/
theorem init_reaches (w : World) :
    ∃ w' es, lcd_i2c_init w ⟨false, ESP_OK, ESP_OK, true⟩
        = some ((), ESP_LOGI (esp_rom_delay_us w' 2000) InfoMsg.lcdInitialised)
      ∧ Reaches w w' es 8 12 := by
  have r := reaches_then_emit (reaches_trans (reaches_emit w (Event.logI InfoMsg.initialisingBus))
    (reaches_held _ false)) (Event.delayMs 100)
  obtain ⟨_, r⟩ := reaches_then_nibble r CMD_INIT_8BIT 0
  have r := reaches_then_emit r (Event.delayMs 5)
  obtain ⟨_, r⟩ := reaches_then_nibble r CMD_INIT_8BIT 0
  have r := reaches_then_emit r (Event.delayUs 150)
  obtain ⟨_, r⟩ := reaches_then_nibble r CMD_INIT_8BIT 0
  have r := reaches_then_emit r (Event.delayUs 150)
  obtain ⟨_, r⟩ := reaches_then_nibble r CMD_INIT_4BIT 0
  have r := reaches_then_emit r (Event.delayUs 150)
  obtain ⟨_, r⟩ := reaches_then_byte r CMD_FUNCTION_SET_4BIT 0
  obtain ⟨_, r⟩ := reaches_then_byte r CMD_DISPLAY_ON 0
  obtain ⟨_, r⟩ := reaches_then_byte r CMD_ENTRY 0
  obtain ⟨_, r⟩ := reaches_then_byte r CMD_CLEAR 0
  exact ⟨_, _, rfl, r⟩

/-- The trace of `lcd_send_byte` extends the trace it starts from. -/
theorem lcd_send_byte_trace (w : World) (val mode : Nat) :
    ∃ es, (lcd_send_byte w val mode).2.trace = w.trace ++ es := by
  obtain ⟨es, h⟩ := reaches_byte w val mode
  exact ⟨es, h.2.2.1⟩

/-! ## Lemmas on runs in which the bus works -/

theorem runs_emit {w w1 : World} {es : List Event} {n : Nat} (r : Runs w w1 es n)
    (e : Event) : Runs w (w1.emit e) (es ++ [e]) n := by
  obtain ⟨ht, hx, hnt, hnx, htr⟩ := r
  refine ⟨ht, hx, hnt, hnx, ?_⟩
  show w1.trace ++ [e] = _
  rw [htr, List.append_assoc]

/-- A `lcd_write_nibble` call made while the bus works succeeds. -/
theorem runs_nibble {w w1 : World} {es : List Event} {n N : Nat} (hw : BusWorks w N)
    (r : Runs w w1 es n) (hn : n < N) (nibble mode : Nat) :
    (lcd_write_nibble w1 nibble mode).1 = ESP_OK
      ∧ Runs w (lcd_write_nibble w1 nibble mode).2 (es ++ nibbleOk nibble mode) (n + 1) := by
  obtain ⟨ht, hx, hnt, hnx, htr⟩ := r
  have hg : w1.takeOracle w1.nTake = true := by rw [ht, hnt]; exact hw.1 n hn
  have he : w1.txOracle w1.nTx = ESP_OK := by rw [hx, hnx]; exact hw.2 n hn
  rw [lcd_write_nibble_eq]
  simp only [hg, he, if_true]
  refine ⟨trivial, ht, hx, ?_, ?_, ?_⟩
  · show w1.nTake + 1 = _
    omega
  · show w1.nTx + 1 = _
    omega
  · show w1.trace ++ nibbleOps true ESP_OK nibble mode = _
    rw [htr, List.append_assoc]
    rfl

/-- A `lcd_send_byte` call made while the bus works sends both nibbles. -/
theorem runs_byte {w w1 : World} {es : List Event} {n N : Nat} (hw : BusWorks w N)
    (r : Runs w w1 es n) (hn : n + 1 < N) (val mode : Nat) :
    Runs w (lcd_send_byte w1 val mode).2 (es ++ byteOk val mode) (n + 2) := by
  obtain ⟨h1, r1⟩ := runs_nibble hw r (by omega) (u8 (val &&& 0xF0)) mode
  obtain ⟨h2, r2⟩ := runs_nibble hw r1 hn (u8 ((val <<< 4) &&& 0xF0)) mode
  rcases hn1 : lcd_write_nibble w1 (u8 (val &&& 0xF0)) mode with ⟨e1, v1⟩
  rw [hn1] at h1 r1 h2 r2
  rcases hn2 : lcd_write_nibble v1 (u8 ((val <<< 4) &&& 0xF0)) mode with ⟨e2, v2⟩
  rw [hn2] at h2 r2
  simp only at h1 h2 r1 r2
  subst h1 h2
  simp only [lcd_send_byte, hn1, hn2, ne_eq, not_true_eq_false, if_false]
  rw [byteOk, ← List.append_assoc]
  exact r2

/-- The command sequence of `lcd_i2c_init` when the bus works. -/
theorem init_runs (w : World) (hw : BusWorks w 12) :
    ∃ w', lcd_i2c_init w ⟨false, ESP_OK, ESP_OK, true⟩ = some ((), w')
      ∧ Runs w w' initOps 12 := by
  have r : Runs w ({ (ESP_LOGI w InfoMsg.initialisingBus) with held := false })
      [Event.logI InfoMsg.initialisingBus] 0 := ⟨rfl, rfl, rfl, rfl, rfl⟩
  have r := runs_emit r (Event.delayMs 100)
  have r := (runs_nibble hw r (by decide) CMD_INIT_8BIT 0).2
  have r := runs_emit r (Event.delayMs 5)
  have r := (runs_nibble hw r (by decide) CMD_INIT_8BIT 0).2
  have r := runs_emit r (Event.delayUs 150)
  have r := (runs_nibble hw r (by decide) CMD_INIT_8BIT 0).2
  have r := runs_emit r (Event.delayUs 150)
  have r := (runs_nibble hw r (by decide) CMD_INIT_4BIT 0).2
  have r := runs_emit r (Event.delayUs 150)
  have r := runs_byte hw r (by decide) CMD_FUNCTION_SET_4BIT 0
  have r := runs_byte hw r (by decide) CMD_DISPLAY_ON 0
  have r := runs_byte hw r (by decide) CMD_ENTRY 0
  have r := runs_byte hw r (by decide) CMD_CLEAR 0
  have r := runs_emit (runs_emit r (Event.delayUs 2000)) (Event.logI InfoMsg.lcdInitialised)
  have hops : [Event.logI InfoMsg.initialisingBus] ++ [Event.delayMs 100]
      ++ nibbleOk CMD_INIT_8BIT 0 ++ [Event.delayMs 5]
      ++ nibbleOk CMD_INIT_8BIT 0 ++ [Event.delayUs 150]
      ++ nibbleOk CMD_INIT_8BIT 0 ++ [Event.delayUs 150]
      ++ nibbleOk CMD_INIT_4BIT 0 ++ [Event.delayUs 150]
      ++ byteOk CMD_FUNCTION_SET_4BIT 0 ++ byteOk CMD_DISPLAY_ON 0 ++ byteOk CMD_ENTRY 0
      ++ byteOk CMD_CLEAR 0 ++ [Event.delayUs 2000] ++ [Event.logI InfoMsg.lcdInitialised]
      = initOps := by
    simp only [initOps, List.append_assoc, List.cons_append, List.nil_append]
  rw [hops] at r
  exact ⟨_, rfl, r⟩

/-! ## Exact operations, whatever fails -/

/-- Effect of `lcd_send_byte`, whatever the environment answers. -/
theorem lcd_send_byte_fields (w : World) (val mode : Nat) :
    (lcd_send_byte w val mode).2.takeOracle = w.takeOracle
      ∧ (lcd_send_byte w val mode).2.txOracle = w.txOracle
      ∧ (lcd_send_byte w val mode).2.nTake
          = w.nTake + byteTakes w.takeOracle w.txOracle w.nTake w.nTx
      ∧ (lcd_send_byte w val mode).2.nTx
          = w.nTx + byteTx w.takeOracle w.txOracle w.nTake w.nTx
      ∧ (lcd_send_byte w val mode).2.trace
          = w.trace ++ byteOps w.takeOracle w.txOracle w.nTake w.nTx val mode := by
  unfold lcd_send_byte
  simp only [lcd_write_nibble_eq]
  cases hg1 : w.takeOracle w.nTake
  · simp [byteOps, byteTakes, byteTx, hg1, ESP_LOGE, World.emit, ESP_ERR_TIMEOUT, ESP_OK]
  · by_cases hx1 : w.txOracle w.nTx = ESP_OK
    · cases hg2 : w.takeOracle (w.nTake + 1)
      · simp [byteOps, byteTakes, byteTx, hg1, hx1, hg2, ESP_LOGE, World.emit, nibbleOk,
          ESP_ERR_TIMEOUT, ESP_OK]
      · by_cases hx2 : w.txOracle (w.nTx + 1) = ESP_OK
        · simp [byteOps, byteTakes, byteTx, hg1, hx1, hg2, hx2, ESP_LOGE, World.emit,
            nibbleOk]
        · simp [byteOps, byteTakes, byteTx, hg1, hx1, hg2, hx2, ESP_LOGE, World.emit,
            nibbleOk]
    · simp [byteOps, byteTakes, byteTx, hg1, hx1, ESP_LOGE, World.emit]

theorem rem_emit {tk : Nat → Bool} {tx : Nat → esp_err_t} {full : List Event} {w1 : World}
    {rest : List InitStep} (e : Event)
    (h : w1.takeOracle = tk ∧ w1.txOracle = tx
      ∧ full = w1.trace ++ (e :: scriptOps tk tx w1.nTake w1.nTx rest)) :
    Remaining tk tx full (w1.emit e) rest := by
  obtain ⟨ht, hx, hf⟩ := h
  refine ⟨ht, hx, ?_⟩
  show full = (w1.trace ++ [e]) ++ scriptOps tk tx w1.nTake w1.nTx rest
  rw [hf, List.append_assoc]
  rfl

theorem rem_info {tk : Nat → Bool} {tx : Nat → esp_err_t} {full : List Event} {w1 : World}
    {rest : List InitStep} {msg : InfoMsg}
    (h : Remaining tk tx full w1 (InitStep.info msg :: rest)) :
    Remaining tk tx full (ESP_LOGI w1 msg) rest :=
  rem_emit (Event.logI msg) h

theorem rem_waitMs {tk : Nat → Bool} {tx : Nat → esp_err_t} {full : List Event} {w1 : World}
    {rest : List InitStep} {ms : Nat}
    (h : Remaining tk tx full w1 (InitStep.waitMs ms :: rest)) :
    Remaining tk tx full (vTaskDelay w1 ms) rest :=
  rem_emit (Event.delayMs ms) h

theorem rem_waitUs {tk : Nat → Bool} {tx : Nat → esp_err_t} {full : List Event} {w1 : World}
    {rest : List InitStep} {us : Nat}
    (h : Remaining tk tx full w1 (InitStep.waitUs us :: rest)) :
    Remaining tk tx full (esp_rom_delay_us w1 us) rest :=
  rem_emit (Event.delayUs us) h

theorem rem_held {tk : Nat → Bool} {tx : Nat → esp_err_t} {full : List Event} {w1 : World}
    {rest : List InitStep} (b : Bool) (h : Remaining tk tx full w1 rest) :
    Remaining tk tx full { w1 with held := b } rest := h

theorem rem_nibble {tk : Nat → Bool} {tx : Nat → esp_err_t} {full : List Event} {w1 : World}
    {rest : List InitStep} {n : Nat}
    (h : Remaining tk tx full w1 (InitStep.nibble n :: rest)) :
    Remaining tk tx full (lcd_write_nibble w1 n 0).2 rest := by
  obtain ⟨ht, hx, hf⟩ := h
  rw [lcd_write_nibble_eq]
  refine ⟨ht, hx, ?_⟩
  show full = (w1.trace ++ nibbleOps (w1.takeOracle w1.nTake) (w1.txOracle w1.nTx) n 0)
    ++ scriptOps tk tx (w1.nTake + 1)
        (if w1.takeOracle w1.nTake = true then w1.nTx + 1 else w1.nTx) rest
  rw [hf, List.append_assoc, ht, hx]
  rfl

theorem rem_byte {tk : Nat → Bool} {tx : Nat → esp_err_t} {full : List Event} {w1 : World}
    {rest : List InitStep} {val : Nat}
    (h : Remaining tk tx full w1 (InitStep.byte val :: rest)) :
    Remaining tk tx full (lcd_send_byte w1 val 0).2 rest := by
  obtain ⟨ht, hx, hf⟩ := h
  obtain ⟨ht', hx', hnt, hnx, htr⟩ := lcd_send_byte_fields w1 val 0
  refine ⟨ht'.trans ht, hx'.trans hx, ?_⟩
  rw [hnt, hnx, htr, hf, List.append_assoc, ht, hx]
  rfl

/-- The operations of `lcd_i2c_init` are those of its script, whatever fails. -/
theorem init_exact (w : World) :
    ∃ w', lcd_i2c_init w ⟨false, ESP_OK, ESP_OK, true⟩ = some ((), w')
      ∧ w'.trace = w.trace ++ scriptOps w.takeOracle w.txOracle w.nTake w.nTx initScript := by
  have r : Remaining w.takeOracle w.txOracle
      (w.trace ++ scriptOps w.takeOracle w.txOracle w.nTake w.nTx initScript) w initScript :=
    ⟨rfl, rfl, rfl⟩
  have r := rem_waitMs (rem_held false (rem_info r))
  have r := rem_waitMs (rem_nibble r)
  have r := rem_waitUs (rem_nibble r)
  have r := rem_waitUs (rem_nibble r)
  have r := rem_waitUs (rem_nibble r)
  have r := rem_byte (rem_byte (rem_byte r))
  have r := rem_info (rem_waitUs (rem_byte r))
  obtain ⟨-, -, hf⟩ := r
  rw [scriptOps, List.append_nil] at hf
  exact ⟨_, rfl, hf.symm⟩

/-- When the first nibble fails, `lcd_send_byte` logs it and stops. -/
theorem lcd_send_byte_fail (w : World) (val mode : Nat)
    (h : w.takeOracle w.nTake = false ∨ w.txOracle w.nTx ≠ ESP_OK) :
    lcd_send_byte w val mode
      = ((), ESP_LOGE (lcd_write_nibble w (u8 (val &&& 0xF0)) mode).2
          LogMsg.highNibbleFailed) := by
  have herr : (lcd_write_nibble w (u8 (val &&& 0xF0)) mode).1 ≠ ESP_OK := by
    rw [lcd_write_nibble_eq]
    cases hg : w.takeOracle w.nTake
    · simp [ESP_ERR_TIMEOUT, ESP_OK]
    · rcases h with h | h
      · rw [hg] at h; cases h
      · simpa using h
  rcases hn : lcd_write_nibble w (u8 (val &&& 0xF0)) mode with ⟨e1, w1⟩
  rw [hn] at herr
  simp only [lcd_send_byte, hn]
  rw [if_pos herr]

/-! ## Initialisation and clear (claims C11 to C14) -/

/-- C11, as stated, fails: with the first transmission of the command sequence failing,
`lcd_i2c_init` still makes the eleven other transmissions and returns normally, its last
operation being the log line "LCD initialized". -/
theorem init_continues_after_bus_error :
    busFailsOnce.txOracle 0 ≠ ESP_OK
      ∧ (lcd_i2c_init busFailsOnce setupOk).isSome = true
      ∧ (lcd_i2c_init busFailsOnce setupOk).map (fun r => transmitted r.2.trace)
          = some [[60, 56], [60, 56], [60, 56], [44, 40], [44, 40], [140, 136], [12, 8],
              [204, 200], [12, 8], [108, 104], [12, 8], [28, 24]]
      ∧ (lcd_i2c_init busFailsOnce setupOk).map (fun r => r.2.trace.getLast?)
          = some (some (Event.logI InfoMsg.lcdInitialised)) := by
  decide

/-- C11, amended: `lcd_i2c_init` aborts only when it is called from an ISR or when the bus,
the device or the mutex cannot be created. Otherwise it returns normally whatever the takes
and transmissions of its command sequence answer, and its operations are those of its
script carried out to the end: a failed take or transmission is reported by error lines in
the log only (of `lcd_i2c_tx` and `lcd_write_nibble` for a nibble, and of `lcd_send_byte`,
which skips the low nibble of a byte whose high nibble failed), and the next step follows.
Between 8 and 12 takes are made, and the last operations are the 2000 microsecond wait and
the log line "LCD initialized". -/
theorem init_completes_despite_bus_errors (w : World) (env : InitEnv)
    (hctx : env.inIsr = false) (hbus : env.busErr = ESP_OK) (hdev : env.devErr = ESP_OK)
    (hmutex : env.mutexOk = true) :
    ∃ w' es, lcd_i2c_init w env = some ((), w')
      ∧ w'.trace = w.trace ++ es ++ [Event.delayUs 2000, Event.logI InfoMsg.lcdInitialised]
      ∧ w.nTake + 8 ≤ w'.nTake ∧ w'.nTake ≤ w.nTake + 12
      ∧ (((∃ k, w.nTake ≤ k ∧ k < w'.nTake ∧ w.takeOracle k = false)
            ∨ (∃ k, w.nTx ≤ k ∧ k < w'.nTx ∧ w.txOracle k ≠ ESP_OK))
          → Event.logE LogMsg.nibbleTxFailed ∈ es)
      ∧ w'.trace = w.trace ++ scriptOps w.takeOracle w.txOracle w.nTake w.nTx
          [InitStep.info InfoMsg.initialisingBus, InitStep.waitMs 100,
            InitStep.nibble 0x30, InitStep.waitMs 5,
            InitStep.nibble 0x30, InitStep.waitUs 150,
            InitStep.nibble 0x30, InitStep.waitUs 150,
            InitStep.nibble 0x20, InitStep.waitUs 150,
            InitStep.byte 0x28, InitStep.byte 0x0C, InitStep.byte 0x06,
            InitStep.byte 0x01, InitStep.waitUs 2000, InitStep.info InfoMsg.lcdInitialised]
      ∧ (∀ (v : World) (nibble mode : Nat),
          (lcd_write_nibble v nibble mode).2.trace = v.trace ++
            (if v.takeOracle v.nTake = false then
              [Event.take 100 false, Event.logE LogMsg.mutexTimeout,
                Event.logE LogMsg.nibbleTxFailed]
            else if v.txOracle v.nTx ≠ ESP_OK then
              [Event.take 100 true, Event.transmit (lcd_write_nibble_pkt nibble mode) (-1),
                Event.logE LogMsg.transmitFailed, Event.give,
                Event.logE LogMsg.nibbleTxFailed]
            else
              [Event.take 100 true, Event.transmit (lcd_write_nibble_pkt nibble mode) (-1),
                Event.give, Event.delayUs 50]))
      ∧ (∀ (v : World) (val mode : Nat),
          (v.takeOracle v.nTake = false ∨ v.txOracle v.nTx ≠ ESP_OK) →
            (lcd_send_byte v val mode).2.trace
                = (lcd_write_nibble v (u8 (val &&& 0xF0)) mode).2.trace
                  ++ [Event.logE LogMsg.highNibbleFailed]
              ∧ (lcd_send_byte v val mode).2.nTake = v.nTake + 1)
      ∧ (∀ (v : World) (val mode : Nat),
          v.takeOracle v.nTake = true → v.txOracle v.nTx = ESP_OK →
            (lcd_send_byte v val mode).2.trace
                = (lcd_write_nibble (lcd_write_nibble v (u8 (val &&& 0xF0)) mode).2
                    (u8 ((val <<< 4) &&& 0xF0)) mode).2.trace
                  ++ (if v.takeOracle (v.nTake + 1) = true ∧ v.txOracle (v.nTx + 1) = ESP_OK
                      then [] else [Event.logE LogMsg.lowNibbleFailed])
              ∧ (lcd_send_byte v val mode).2.nTake = v.nTake + 2)
      ∧ (∀ env' : InitEnv, lcd_i2c_init w env' = none ↔
          (env'.inIsr = true ∨ env'.busErr ≠ ESP_OK ∨ env'.devErr ≠ ESP_OK
            ∨ env'.mutexOk = false)) := by
  obtain ⟨inIsr, busErr, devErr, mutexOk⟩ := env
  simp only at hctx hbus hdev hmutex
  subst hctx hbus hdev hmutex
  obtain ⟨w1, es, hinit, -, -, htr, hlo, hhi, -, hlog⟩ := init_reaches w
  obtain ⟨w2, hinit2, hexact⟩ := init_exact w
  have hw : w2 = ESP_LOGI (esp_rom_delay_us w1 2000) InfoMsg.lcdInitialised := by
    rw [hinit] at hinit2
    injection hinit2 with h
    injection h with _ h
    exact h.symm
  subst hw
  refine ⟨_, es, hinit, ?_, hlo, hhi, hlog, hexact, ?_, ?_, ?_, ?_⟩
  · show (w1.trace ++ [Event.delayUs 2000]) ++ [Event.logI InfoMsg.lcdInitialised] = _
    rw [htr]
    simp
  · intro v nibble mode
    rw [lcd_write_nibble_eq]
    show v.trace ++ nibbleOps (v.takeOracle v.nTake) (v.txOracle v.nTx) nibble mode = _
    cases hg : v.takeOracle v.nTake
    · simp [nibbleOps]
    · by_cases hx : v.txOracle v.nTx = ESP_OK <;> simp [nibbleOps, hx]
  · intro v val mode hfail
    rw [lcd_send_byte_fail v val mode hfail]
    refine ⟨rfl, ?_⟩
    rw [lcd_write_nibble_eq]
    rfl
  · intro v val mode hg hx
    obtain ⟨-, -, hnt, -, htr'⟩ := lcd_send_byte_fields v val mode
    refine ⟨?_, ?_⟩
    · rw [htr']
      simp only [lcd_write_nibble_eq, byteOps, hg, hx, and_self, if_true, nibbleOk,
        List.append_assoc]
    · rw [hnt]
      simp [byteTakes, hg, hx]
  · intro env'
    obtain ⟨i, b, d, m⟩ := env'
    constructor
    · intro hnone
      by_contra hcon
      simp only [not_or, Bool.not_eq_true, not_not, Bool.not_eq_false] at hcon
      obtain ⟨hi, hb, hd, hm⟩ := hcon
      subst hi hb hd hm
      obtain ⟨w3, h3, -⟩ := init_exact w
      rw [h3] at hnone
      cases hnone
    · intro h
      unfold lcd_i2c_init
      by_cases hi : i = true
      · simp [hi]
      · by_cases hb : b = ESP_OK
        · by_cases hd : d = ESP_OK
          · by_cases hm : m = true
            · exact absurd h (by simp [hi, hb, hd, hm])
            · simp [hi, hb, hd, hm]
          · simp [hi, hb, hd]
        · simp [hi, hb]

/-- C11, amended, witness: the first transmission fails; every operation spelled out. -/
theorem init_completes_despite_bus_errors_witness :
    setupOk.inIsr = false ∧ setupOk.busErr = ESP_OK ∧ setupOk.devErr = ESP_OK
      ∧ setupOk.mutexOk = true
      ∧ (lcd_i2c_init busFailsOnce setupOk).map (fun r => r.2.trace)
        = some [Event.logI InfoMsg.initialisingBus, Event.delayMs 100,
            Event.take 100 true, Event.transmit [0x3C, 0x38] (-1),
            Event.logE LogMsg.transmitFailed, Event.give, Event.logE LogMsg.nibbleTxFailed,
            Event.delayMs 5,
            Event.take 100 true, Event.transmit [0x3C, 0x38] (-1), Event.give,
            Event.delayUs 50, Event.delayUs 150,
            Event.take 100 true, Event.transmit [0x3C, 0x38] (-1), Event.give,
            Event.delayUs 50, Event.delayUs 150,
            Event.take 100 true, Event.transmit [0x2C, 0x28] (-1), Event.give,
            Event.delayUs 50, Event.delayUs 150,
            Event.take 100 true, Event.transmit [0x2C, 0x28] (-1), Event.give,
            Event.delayUs 50,
            Event.take 100 true, Event.transmit [0x8C, 0x88] (-1), Event.give,
            Event.delayUs 50,
            Event.take 100 true, Event.transmit [0x0C, 0x08] (-1), Event.give,
            Event.delayUs 50,
            Event.take 100 true, Event.transmit [0xCC, 0xC8] (-1), Event.give,
            Event.delayUs 50,
            Event.take 100 true, Event.transmit [0x0C, 0x08] (-1), Event.give,
            Event.delayUs 50,
            Event.take 100 true, Event.transmit [0x6C, 0x68] (-1), Event.give,
            Event.delayUs 50,
            Event.take 100 true, Event.transmit [0x0C, 0x08] (-1), Event.give,
            Event.delayUs 50,
            Event.take 100 true, Event.transmit [0x1C, 0x18] (-1), Event.give,
            Event.delayUs 50,
            Event.delayUs 2000, Event.logI InfoMsg.lcdInitialised]
      ∧ (lcd_i2c_init highNibbleFails setupOk).map (fun r => (r.2.trace.drop 22).take 10)
        = some [Event.take 100 true, Event.transmit [0x2C, 0x28] (-1),
            Event.logE LogMsg.transmitFailed, Event.give, Event.logE LogMsg.nibbleTxFailed,
            Event.logE LogMsg.highNibbleFailed,
            Event.take 100 true, Event.transmit [0x0C, 0x08] (-1), Event.give,
            Event.delayUs 50] :=
  ⟨rfl, rfl, rfl, rfl,
    (match init_completes_despite_bus_errors busFailsOnce setupOk rfl rfl rfl rfl with
      | ⟨_, _, hinit, _, _, _, _, hexact, _⟩ => by
        rw [hinit, Option.map_some', hexact]; decide),
    (match init_completes_despite_bus_errors highNibbleFails setupOk rfl rfl rfl rfl with
      | ⟨_, _, hinit, _, _, _, _, hexact, _⟩ => by
        rw [hinit, Option.map_some', hexact]; decide)⟩

/-- C12: when the set-up succeeds and the twelve takes and twelve transmissions succeed,
`lcd_i2c_init` returns after exactly these operations, in this order: a 100 ms wait; the
nibble `0x30` three times, followed by waits of 5 ms, 150 and 150 microseconds; the nibble
`0x20` and a 150 microsecond wait; the bytes `0x28`, `0x0C`, `0x06`; the clear command `0x01`
and a 2000 microsecond wait. Every byte put on the bus has the RS bit clear. The sequence is
the same in every such world: nothing is read back. -/
theorem init_command_sequence (w : World) (env : InitEnv)
    (hctx : env.inIsr = false) (hbus : env.busErr = ESP_OK) (hdev : env.devErr = ESP_OK)
    (hmutex : env.mutexOk = true) (hw : BusWorks w 12) :
    ∃ w', lcd_i2c_init w env = some ((), w')
      ∧ w'.trace = w.trace ++
          ([Event.logI InfoMsg.initialisingBus, Event.delayMs 100]
            ++ nibbleOk 0x30 0 ++ [Event.delayMs 5]
            ++ nibbleOk 0x30 0 ++ [Event.delayUs 150]
            ++ nibbleOk 0x30 0 ++ [Event.delayUs 150]
            ++ nibbleOk 0x20 0 ++ [Event.delayUs 150]
            ++ byteOk 0x28 0 ++ byteOk 0x0C 0 ++ byteOk 0x06 0
            ++ byteOk 0x01 0 ++ [Event.delayUs 2000, Event.logI InfoMsg.lcdInitialised])
      ∧ (∀ b ∈ wireBytes (w'.trace.drop w.trace.length), b &&& LCD_RS = 0)
      ∧ w'.nTake = w.nTake + 12 ∧ w'.nTx = w.nTx + 12 := by
  obtain ⟨inIsr, busErr, devErr, mutexOk⟩ := env
  simp only at hctx hbus hdev hmutex
  subst hctx hbus hdev hmutex
  obtain ⟨w', hinit, -, -, hnt, hnx, htr⟩ := init_runs w hw
  refine ⟨w', hinit, htr, ?_, hnt, hnx⟩
  rw [htr, List.drop_left]
  decide

/-- C12, witness: a fresh world in which everything works; the operations spelled out. -/
theorem init_command_sequence_witness :
    setupOk.inIsr = false ∧ setupOk.busErr = ESP_OK ∧ setupOk.devErr = ESP_OK
      ∧ setupOk.mutexOk = true ∧ BusWorks busFine 12
      ∧ (lcd_i2c_init busFine setupOk).map (fun r => r.2.trace)
        = some [Event.logI InfoMsg.initialisingBus, Event.delayMs 100,
            Event.take 100 true, Event.transmit [0x3C, 0x38] (-1), Event.give,
            Event.delayUs 50, Event.delayMs 5,
            Event.take 100 true, Event.transmit [0x3C, 0x38] (-1), Event.give,
            Event.delayUs 50, Event.delayUs 150,
            Event.take 100 true, Event.transmit [0x3C, 0x38] (-1), Event.give,
            Event.delayUs 50, Event.delayUs 150,
            Event.take 100 true, Event.transmit [0x2C, 0x28] (-1), Event.give,
            Event.delayUs 50, Event.delayUs 150,
            Event.take 100 true, Event.transmit [0x2C, 0x28] (-1), Event.give,
            Event.delayUs 50,
            Event.take 100 true, Event.transmit [0x8C, 0x88] (-1), Event.give,
            Event.delayUs 50,
            Event.take 100 true, Event.transmit [0x0C, 0x08] (-1), Event.give,
            Event.delayUs 50,
            Event.take 100 true, Event.transmit [0xCC, 0xC8] (-1), Event.give,
            Event.delayUs 50,
            Event.take 100 true, Event.transmit [0x0C, 0x08] (-1), Event.give,
            Event.delayUs 50,
            Event.take 100 true, Event.transmit [0x6C, 0x68] (-1), Event.give,
            Event.delayUs 50,
            Event.take 100 true, Event.transmit [0x0C, 0x08] (-1), Event.give,
            Event.delayUs 50,
            Event.take 100 true, Event.transmit [0x1C, 0x18] (-1), Event.give,
            Event.delayUs 50,
            Event.delayUs 2000, Event.logI InfoMsg.lcdInitialised] :=
  ⟨rfl, rfl, rfl, rfl, ⟨fun _ _ => rfl, fun _ _ => rfl⟩,
    match init_command_sequence busFine setupOk rfl rfl rfl rfl
      ⟨fun _ _ => rfl, fun _ _ => rfl⟩ with
    | ⟨_, hinit, htr, _⟩ => by rw [hinit, Option.map_some', htr]; rfl⟩

/-- C13, as stated, fails: when the guard is never granted, `lcd_clear` sends nothing, logs
the failure and hands its caller the same (empty) result as when the clear command went
through, while `lcd_send_row` in the same two worlds returns `ESP_ERR_TIMEOUT` and
`ESP_OK`. -/
theorem clear_failure_not_returned :
    (lcd_clear guardBusy false).map Prod.fst = (lcd_clear busFine false).map Prod.fst
      ∧ (lcd_clear guardBusy false).map (fun r => r.2.trace)
          = some [Event.take 100 false, Event.logE LogMsg.mutexTimeout,
              Event.logE LogMsg.nibbleTxFailed, Event.logE LogMsg.highNibbleFailed,
              Event.delayUs 2000]
      ∧ (lcd_clear busFine false).map (fun r => transmitted r.2.trace)
          = some [[0x0C, 0x08], [0x1C, 0x18]]
      ∧ (lcd_send_row guardBusy (List.replicate 68 0) 0 []).1 = ESP_ERR_TIMEOUT
      ∧ (lcd_send_row busFine (List.replicate 68 0) 0 []).1 = ESP_OK := by
  decide

/-- C13, amended: `lcd_clear` returns no result value. Called outside of an ISR it always
returns normally, so a failure does not crash the caller, and its operations are, according
to what the environment answers: when the high nibble of the clear command fails (take
refused or transmission error), the error lines and nothing for the low nibble, which is
skipped; when the low nibble fails, the high nibble and the error lines; otherwise both
nibbles. In every case the 2000 microsecond wait comes last: a failure only shows in the
log. -/
theorem clear_failure_logged_only (w : World) :
    ∃ w', lcd_clear w false = some ((), w')
      ∧ w'.trace = w.trace ++
          (if w.takeOracle w.nTake = false then
            [Event.take 100 false, Event.logE LogMsg.mutexTimeout,
              Event.logE LogMsg.nibbleTxFailed, Event.logE LogMsg.highNibbleFailed,
              Event.delayUs 2000]
          else if w.txOracle w.nTx ≠ ESP_OK then
            [Event.take 100 true, Event.transmit [0x0C, 0x08] (-1),
              Event.logE LogMsg.transmitFailed, Event.give,
              Event.logE LogMsg.nibbleTxFailed, Event.logE LogMsg.highNibbleFailed,
              Event.delayUs 2000]
          else if w.takeOracle (w.nTake + 1) = false then
            [Event.take 100 true, Event.transmit [0x0C, 0x08] (-1), Event.give,
              Event.delayUs 50,
              Event.take 100 false, Event.logE LogMsg.mutexTimeout,
              Event.logE LogMsg.nibbleTxFailed, Event.logE LogMsg.lowNibbleFailed,
              Event.delayUs 2000]
          else if w.txOracle (w.nTx + 1) ≠ ESP_OK then
            [Event.take 100 true, Event.transmit [0x0C, 0x08] (-1), Event.give,
              Event.delayUs 50,
              Event.take 100 true, Event.transmit [0x1C, 0x18] (-1),
              Event.logE LogMsg.transmitFailed, Event.give,
              Event.logE LogMsg.nibbleTxFailed, Event.logE LogMsg.lowNibbleFailed,
              Event.delayUs 2000]
          else
            [Event.take 100 true, Event.transmit [0x0C, 0x08] (-1), Event.give,
              Event.delayUs 50,
              Event.take 100 true, Event.transmit [0x1C, 0x18] (-1), Event.give,
              Event.delayUs 50,
              Event.delayUs 2000])
      ∧ w'.nTake = w.nTake
          + (if w.takeOracle w.nTake = true ∧ w.txOracle w.nTx = ESP_OK then 2 else 1) := by
  obtain ⟨-, -, hnt, -, htr⟩ := lcd_send_byte_fields w CMD_CLEAR 0
  have p1 : lcd_write_nibble_pkt (u8 (CMD_CLEAR &&& 0xF0)) 0 = [0x0C, 0x08] := by decide
  have p2 : lcd_write_nibble_pkt (u8 ((CMD_CLEAR <<< 4) &&& 0xF0)) 0 = [0x1C, 0x18] := by
    decide
  refine ⟨esp_rom_delay_us (lcd_send_byte w CMD_CLEAR 0).2 2000, rfl, ?_, hnt⟩
  show (lcd_send_byte w CMD_CLEAR 0).2.trace ++ [Event.delayUs 2000] = _
  rw [htr, List.append_assoc]
  congr 1
  cases hg1 : w.takeOracle w.nTake
  · simp [byteOps, nibbleOps, hg1]
  · by_cases hx1 : w.txOracle w.nTx = ESP_OK
    · cases hg2 : w.takeOracle (w.nTake + 1)
      · simp [byteOps, nibbleOk, nibbleOps, hg1, hx1, hg2, p1]
      · by_cases hx2 : w.txOracle (w.nTx + 1) = ESP_OK
        · simp [byteOps, nibbleOk, nibbleOps, hg1, hx1, hg2, hx2, p1, p2]
        · simp [byteOps, nibbleOk, nibbleOps, hg1, hx1, hg2, hx2, p1, p2]
    · simp [byteOps, nibbleOps, hg1, hx1, p1]

/-- C14: `lcd_clear` aborts when called from an ISR; otherwise it returns, on every path,
and what it has done is the attempt to send the clear command (the operations of
`lcd_send_byte` for `0x01` in command mode, failed or not) followed by the 2000 microsecond
delay, which is its last operation. -/
theorem clear_ends_with_settle_delay (w : World) :
    lcd_clear w true = none
      ∧ ∃ w' es, lcd_clear w false = some ((), w')
        ∧ (lcd_send_byte w 0x01 0).2.trace = w.trace ++ es
        ∧ w'.trace = w.trace ++ es ++ [Event.delayUs 2000]
        ∧ w'.trace.getLast? = some (Event.delayUs 2000) := by
  refine ⟨rfl, ?_⟩
  obtain ⟨es, htr⟩ := lcd_send_byte_trace w 0x01 0
  have h : (esp_rom_delay_us (lcd_send_byte w 0x01 0).2 2000).trace
      = w.trace ++ es ++ [Event.delayUs 2000] := by
    show (lcd_send_byte w 0x01 0).2.trace ++ [Event.delayUs 2000] = _
    rw [htr]
  refine ⟨esp_rom_delay_us (lcd_send_byte w 0x01 0).2 2000, es, rfl, htr, h, ?_⟩
  rw [h, List.getLast?_append]
  rfl

/-! ## The byte-at-a-time path (claims C17 to C19) -/

theorem runs_refl (w : World) : Runs w w [] 0 :=
  ⟨rfl, rfl, rfl, rfl, (List.append_nil _).symm⟩

/-- The two packets of `lcd_send_byte` are the four bytes of `pack_byte_to_buffer`. -/
theorem pkts_eq_encByte : ∀ val < 256, ∀ mode < 2,
    lcd_write_nibble_pkt (u8 (val &&& 0xF0)) mode
        ++ lcd_write_nibble_pkt (u8 ((val <<< 4) &&& 0xF0)) mode
      = encByte val mode := by
  decide

theorem high_nibble_u8 : ∀ val < 256, u8 (val &&& 0xF0) = val &&& 0xF0
    ∧ u8 ((val <<< 4) &&& 0xF0) = (val <<< 4) &&& 0xF0 := by
  decide

/-- The four bytes stored by `pack_byte_to_buffer`, read back from the buffer. -/
theorem pack_stored (buf ws : List Nat) (idx val mode : Nat) (hidx : idx + 4 ≤ buf.length) :
    ((pack_byte_to_buffer ⟨buf, idx, ws⟩ val mode).buf.drop idx).take 4 = encByte val mode := by
  obtain ⟨pre, old, rest, hpre, -, -, hpack⟩ := pack_at buf ws idx val mode hidx
  rw [hpack]
  show ((pre ++ encByte val mode ++ rest).drop idx).take 4 = _
  rw [List.append_assoc, ← hpre, List.drop_left, List.take_left' (encByte_length val mode)]

/-- C17: for a byte `val` and a mode of 0 or 1, a `lcd_send_byte` call in which both takes
and both transmissions succeed transmits the packet of the high nibble `val & 0xF0` first
and the packet of the low nibble `(val << 4) & 0xF0` second, and the four bytes it puts on
the bus are the four bytes `pack_byte_to_buffer` stores for the same `val` and `mode`. -/
theorem send_byte_matches_pack (w : World) (val mode : Nat) (buf ws : List Nat) (idx : Nat)
    (hval : val < 256) (hmode : mode = 0 ∨ mode = LCD_RS) (hw : BusWorks w 2)
    (hidx : idx + 4 ≤ buf.length) :
    transmitted ((lcd_send_byte w val mode).2.trace.drop w.trace.length)
        = [lcd_write_nibble_pkt (val &&& 0xF0) mode,
            lcd_write_nibble_pkt ((val <<< 4) &&& 0xF0) mode]
      ∧ wireBytes ((lcd_send_byte w val mode).2.trace.drop w.trace.length)
        = ((pack_byte_to_buffer ⟨buf, idx, ws⟩ val mode).buf.drop idx).take 4 := by
  have hm : mode < 2 := by
    rcases hmode with h | h <;> rw [h] <;> decide
  obtain ⟨-, -, -, -, htr⟩ := runs_byte hw (runs_refl w) (by decide) val mode
  have h1 := (high_nibble_u8 val hval).1
  have h2 := (high_nibble_u8 val hval).2
  rw [htr, List.drop_left, pack_stored buf ws idx val mode hidx,
    ← pkts_eq_encByte val hval mode hm]
  constructor <;> simp [byteOk, nibbleOk, nibbleOps, transmitted, wireBytes, h1, h2]

/-- C17, witness: the clear command `0x01` in command mode. -/
theorem send_byte_matches_pack_witness :
    1 < 256 ∧ (0 = 0 ∨ 0 = LCD_RS) ∧ BusWorks busFine 2
      ∧ 0 + 4 ≤ (List.replicate 4 0).length
      ∧ wireBytes ((lcd_send_byte busFine 1 0).2.trace.drop busFine.trace.length)
          = [0x0C, 0x08, 0x1C, 0x18] :=
  ⟨by decide, Or.inl rfl, ⟨fun _ _ => rfl, fun _ _ => rfl⟩, by decide,
    (send_byte_matches_pack busFine 1 0 (List.replicate 4 0) [] 0 (by decide) (Or.inl rfl)
      ⟨fun _ _ => rfl, fun _ _ => rfl⟩ (by decide)).2.trans (by decide)⟩

/-- C18: `lcd_send_byte` takes and gives the guard once per nibble. When both takes and both
transmissions succeed its operations are exactly: take (100 ms), transmission of the two
bytes of the high nibble, give, 50 microsecond delay, then the same for the low nibble; the
guard is not held after the first nibble. When the first nibble fails (take refused or
transmission error), one take is made, the failure is logged and nothing is transmitted for
the second nibble. -/
theorem send_byte_guard_per_nibble (w : World) (val mode : Nat) :
    (BusWorks w 2 →
        (lcd_send_byte w val mode).2.trace = w.trace ++
            [Event.take 100 true,
              Event.transmit (lcd_write_nibble_pkt (u8 (val &&& 0xF0)) mode) (-1),
              Event.give, Event.delayUs 50,
              Event.take 100 true,
              Event.transmit (lcd_write_nibble_pkt (u8 ((val <<< 4) &&& 0xF0)) mode) (-1),
              Event.give, Event.delayUs 50]
          ∧ (lcd_write_nibble w (u8 (val &&& 0xF0)) mode).2.held = false
          ∧ (lcd_send_byte w val mode).2.nTake = w.nTake + 2
          ∧ (lcd_send_byte w val mode).2.nTx = w.nTx + 2)
      ∧ ((w.takeOracle w.nTake = false ∨ w.txOracle w.nTx ≠ ESP_OK) →
        (lcd_send_byte w val mode).2.trace = w.trace
            ++ nibbleOps (w.takeOracle w.nTake) (w.txOracle w.nTx) (u8 (val &&& 0xF0)) mode
            ++ [Event.logE LogMsg.highNibbleFailed]
          ∧ (lcd_send_byte w val mode).2.nTake = w.nTake + 1
          ∧ transmitted ((lcd_send_byte w val mode).2.trace.drop w.trace.length)
              = if w.takeOracle w.nTake = true
                then [lcd_write_nibble_pkt (u8 (val &&& 0xF0)) mode] else []) := by
  constructor
  · intro hw
    obtain ⟨-, -, hnt, hnx, htr⟩ := runs_byte hw (runs_refl w) (by decide) val mode
    refine ⟨by rw [htr]; rfl, ?_, hnt, hnx⟩
    have hg : w.takeOracle w.nTake = true := hw.1 0 (by decide)
    rw [lcd_write_nibble_eq]
    simp [hg]
  · intro hfail
    rw [lcd_send_byte_fail w val mode hfail, lcd_write_nibble_eq]
    refine ⟨rfl, rfl, ?_⟩
    show transmitted ((w.trace
        ++ nibbleOps (w.takeOracle w.nTake) (w.txOracle w.nTx) (u8 (val &&& 0xF0)) mode
        ++ [Event.logE LogMsg.highNibbleFailed]).drop w.trace.length) = _
    rw [List.append_assoc, List.drop_left]
    cases hg : w.takeOracle w.nTake
    · simp [nibbleOps, transmitted]
    · rcases hfail with h | h
      · rw [hg] at h; cases h
      · simp [nibbleOps, transmitted, h]

/-- C18, witness: the clear command with a working bus, and with a guard that is never
granted. -/
theorem send_byte_guard_per_nibble_witness :
    BusWorks busFine 2
      ∧ (lcd_send_byte busFine 1 0).2.trace
          = [Event.take 100 true, Event.transmit [0x0C, 0x08] (-1), Event.give,
              Event.delayUs 50,
              Event.take 100 true, Event.transmit [0x1C, 0x18] (-1), Event.give,
              Event.delayUs 50]
      ∧ (guardBusy.takeOracle guardBusy.nTake = false
          ∨ guardBusy.txOracle guardBusy.nTx ≠ ESP_OK)
      ∧ (lcd_send_byte guardBusy 1 0).2.nTake = guardBusy.nTake + 1 :=
  ⟨⟨fun _ _ => rfl, fun _ _ => rfl⟩,
    ((send_byte_guard_per_nibble busFine 1 0).1 ⟨fun _ _ => rfl, fun _ _ => rfl⟩).1.trans
      (by decide),
    Or.inl rfl,
    ((send_byte_guard_per_nibble guardBusy 1 0).2 (Or.inl rfl)).2.1⟩

/-- C19: for a byte `val` and a mode of 0 or 1, the four bytes stored by
`pack_byte_to_buffer` give their inputs back: `(b0 & 0xF0) | (b2 >> 4)` is `val` and
`b0 & 0x01` is `mode`. So two calls that store the same four bytes had the same `val` and
`mode`, and two row buffers built by `lcd_send_row` that agree on a character cell were
built from the same character for that cell. -/
theorem pack_byte_decodes (buf ws buf' ws' : List Nat) (idx idx' val mode val' mode' : Nat)
    (buf0 buf0' : List Nat) (row row' : Nat) (str str' : List Nat)
    (hval : val < 256) (hmode : mode = 0 ∨ mode = LCD_RS) (hidx : idx + 4 ≤ buf.length)
    (hval' : val' < 256) (hmode' : mode' = 0 ∨ mode' = LCD_RS)
    (hidx' : idx' + 4 ≤ buf'.length)
    (hbuf : buf0.length = 68) (hbuf' : buf0'.length = 68) :
    ((pack_byte_to_buffer ⟨buf, idx, ws⟩ val mode).buf.getD idx 0 &&& 0xF0)
          ||| ((pack_byte_to_buffer ⟨buf, idx, ws⟩ val mode).buf.getD (idx + 2) 0 >>> 4) = val
      ∧ (pack_byte_to_buffer ⟨buf, idx, ws⟩ val mode).buf.getD idx 0 &&& 0x01 = mode
      ∧ (((pack_byte_to_buffer ⟨buf, idx, ws⟩ val mode).buf.drop idx).take 4
            = ((pack_byte_to_buffer ⟨buf', idx', ws'⟩ val' mode').buf.drop idx').take 4
          → val = val' ∧ mode = mode')
      ∧ (∀ i, i < 16 →
          (∀ k, k < 4 → (lcd_send_row_pack buf0 row str).buf.getD (4 + 4 * i + k) 0
            = (lcd_send_row_pack buf0' row' str').buf.getD (4 + 4 * i + k) 0)
          → rowCell str i = rowCell str' i) := by
  have hm : mode < 2 := by
    rcases hmode with h | h <;> rw [h] <;> decide
  have hm' : mode' < 2 := by
    rcases hmode' with h | h <;> rw [h] <;> decide
  obtain ⟨hk, -, -⟩ := pack_getD buf ws idx val mode hidx
  have h0 := hk 0 (by decide)
  rw [Nat.add_zero] at h0
  have hdec : ∀ v < 256, ∀ m < 2, ((encByte v m).getD 0 0 &&& 0xF0)
      ||| ((encByte v m).getD 2 0 >>> 4) = v ∧ (encByte v m).getD 0 0 &&& 0x01 = m :=
    fun v hv m hmm => ⟨encByte_decode v hv m hmm, (encByte_ctrl v hv m hmm 0 (by decide)).2.2⟩
  refine ⟨?_, ?_, ?_, ?_⟩
  · rw [h0, hk 2 (by decide)]
    exact (hdec val hval mode hm).1
  · rw [h0]
    exact (hdec val hval mode hm).2
  · rw [pack_stored buf ws idx val mode hidx, pack_stored buf' ws' idx' val' mode' hidx']
    intro heq
    have a := hdec val hval mode hm
    have b := hdec val' hval' mode' hm'
    rw [heq] at a
    exact ⟨a.1.symm.trans b.1, a.2.symm.trans b.2⟩
  · intro i hi hsame
    have a := decodeCell_pack buf0 row str hbuf i hi
    have b := decodeCell_pack buf0' row' str' hbuf' i hi
    unfold decodeCell at a b
    have e0 := hsame 0 (by decide)
    rw [Nat.add_zero] at e0
    rw [e0, hsame 2 (by decide)] at a
    exact a.symm.trans b

/-- C19, witness: `'H'` in data mode at index 4 decodes to `0x48` and mode 1. -/
theorem pack_byte_decodes_witness :
    72 < 256 ∧ (LCD_RS = 0 ∨ LCD_RS = LCD_RS) ∧ 4 + 4 ≤ (List.replicate 68 0).length
      ∧ 105 < 256 ∧ (LCD_RS = 0 ∨ LCD_RS = LCD_RS) ∧ 8 + 4 ≤ (List.replicate 68 0).length
      ∧ (List.replicate 68 0).length = 68 ∧ (List.replicate 68 0xAA).length = 68
      ∧ ((pack_byte_to_buffer ⟨List.replicate 68 0, 4, []⟩ 72 LCD_RS).buf.getD 4 0 &&& 0xF0)
          ||| ((pack_byte_to_buffer ⟨List.replicate 68 0, 4, []⟩ 72 LCD_RS).buf.getD (4 + 2) 0
            >>> 4) = 72 :=
  ⟨by decide, Or.inr rfl, by decide, by decide, Or.inr rfl, by decide, by decide, by decide,
    (pack_byte_decodes (List.replicate 68 0) [] (List.replicate 68 0) [] 4 8 72 LCD_RS 105
      LCD_RS (List.replicate 68 0) (List.replicate 68 0xAA) 0 1 [72, 105] [72]
      (by decide) (Or.inr rfl) (by decide) (by decide) (Or.inr rfl) (by decide) (by decide)
      (by decide)).1⟩

end LcdI2c

/-! # Countdown timer (claims C20 and C21) -/

namespace CountdownTimer

/-- C20 fails on the code: a one-minute timer started at clock 0 and paused at clock
61 000 000 (one second after it ran out, `timer_expired` not having been called in between)
reports a remaining time of -1 000 000 microseconds. The durations are non-negative and the
clock does not go back. -/
theorem remaining_negative_after_late_pause :
    (init_timer true 1).map (fun t => t.duration_us) = some 60000000
      ∧ min_to_us 1 = 60000000
      ∧ timer_pause (timer_start (init_timer true 1) 0 (min_to_us 1)) 61000000
          = some { mode := Mode.PAUSED, start_time_us := 0, duration_us := -1000000 }
      ∧ timer_remaining
          (timer_pause (timer_start (init_timer true 1) 0 (min_to_us 1)) 61000000) 61000000
          = -1000000 := by
  decide

theorem i64_of_range {x : Int} (hlo : -2 ^ 63 ≤ x) (hhi : x < 2 ^ 63) : i64 x = x := by
  unfold i64
  omega

/-- C21: a running timer with start time `s` and duration `d`, paused at `t1` (not before
`s`) and resumed at `t2` (not before `t1`), shows `d - (t1 - s)` at every reading made while
it is paused, and after the resume shows `max 0 ((d - (t1 - s)) - (t - t2))` at every
`t` from `t2` on: the time spent paused is not counted, so that the reading a given time
after the resume is the same for any other resume time `t2'`. Clock values lie between 0
and `2 ^ 62` and the duration between `-2 ^ 62` and `2 ^ 62`, which keeps the 64-bit
arithmetic exact. -/
theorem pause_does_not_count (s d t1 t2 t2' t delta now : Int)
    (hs : 0 ≤ s) (h1 : s ≤ t1) (h2 : t1 ≤ t2) (h2' : t1 ≤ t2') (ht : t2 ≤ t)
    (hdelta : 0 ≤ delta) (hT : t < 2 ^ 62) (hT2 : t2 + delta < 2 ^ 62)
    (hT2' : t2' + delta < 2 ^ 62) (hdlo : -2 ^ 62 ≤ d) (hdhi : d < 2 ^ 62) :
    timer_pause (some ⟨Mode.RUNNING, s, d⟩) t1 = some ⟨Mode.PAUSED, s, d - (t1 - s)⟩
      ∧ timer_remaining (timer_pause (some ⟨Mode.RUNNING, s, d⟩) t1) now = d - (t1 - s)
      ∧ timer_resume (timer_pause (some ⟨Mode.RUNNING, s, d⟩) t1) t2
          = some ⟨Mode.RUNNING, t2, d - (t1 - s)⟩
      ∧ timer_remaining (timer_resume (timer_pause (some ⟨Mode.RUNNING, s, d⟩) t1) t2) t
          = max 0 ((d - (t1 - s)) - (t - t2))
      ∧ timer_remaining (timer_resume (timer_pause (some ⟨Mode.RUNNING, s, d⟩) t1) t2)
            (t2 + delta)
          = timer_remaining (timer_resume (timer_pause (some ⟨Mode.RUNNING, s, d⟩) t1) t2')
            (t2' + delta) := by
  have hp : timer_pause (some ⟨Mode.RUNNING, s, d⟩) t1
      = some ⟨Mode.PAUSED, s, d - (t1 - s)⟩ := by
    simp only [timer_pause]
    rw [i64_of_range (x := t1 - s) (by omega) (by omega),
      i64_of_range (x := d - (t1 - s)) (by omega) (by omega)]
  have hr : ∀ r u : Int, t1 ≤ r → r ≤ u → u < 2 ^ 62 →
      timer_remaining (some ⟨Mode.RUNNING, r, d - (t1 - s)⟩) u
        = max 0 ((d - (t1 - s)) - (u - r)) := by
    intro r u hr1 hr2 hu
    simp only [timer_remaining]
    rw [i64_of_range (x := u - r) (by omega) (by omega),
      i64_of_range (x := d - (t1 - s) - (u - r)) (by omega) (by omega)]
    simp only [reduceCtorEq, if_false]
    split <;> omega
  refine ⟨hp, ?_, ?_, ?_, ?_⟩
  · rw [hp]; simp [timer_remaining]
  · rw [hp]; rfl
  · rw [hp]
    exact hr t2 t h2 ht hT
  · rw [hp]
    show timer_remaining (some ⟨Mode.RUNNING, t2, d - (t1 - s)⟩) (t2 + delta)
      = timer_remaining (some ⟨Mode.RUNNING, t2', d - (t1 - s)⟩) (t2' + delta)
    rw [hr t2 (t2 + delta) h2 (by omega) hT2, hr t2' (t2' + delta) h2' (by omega) hT2']
    congr 1
    omega

/-- C21, witness: a one-minute timer started at 0, paused at 10 s, resumed at 25 s (or at
500 s) and read 20 s after the resume: 30 s remain. -/
theorem pause_does_not_count_witness :
    (0 : Int) ≤ 0 ∧ (0 : Int) ≤ 10000000 ∧ (10000000 : Int) ≤ 25000000
      ∧ (10000000 : Int) ≤ 500000000 ∧ (25000000 : Int) ≤ 45000000
      ∧ (0 : Int) ≤ 20000000 ∧ (45000000 : Int) < 2 ^ 62
      ∧ (25000000 : Int) + 20000000 < 2 ^ 62 ∧ (500000000 : Int) + 20000000 < 2 ^ 62
      ∧ (-2 ^ 62 : Int) ≤ 60000000 ∧ (60000000 : Int) < 2 ^ 62
      ∧ timer_remaining (timer_pause (some ⟨Mode.RUNNING, 0, 60000000⟩) 10000000) 17000000
          = 50000000
      ∧ timer_remaining
          (timer_resume (timer_pause (some ⟨Mode.RUNNING, 0, 60000000⟩) 10000000) 25000000)
          45000000 = 30000000
      ∧ timer_remaining
          (timer_resume (timer_pause (some ⟨Mode.RUNNING, 0, 60000000⟩) 10000000) 500000000)
          (500000000 + 20000000) = 30000000 :=
  have h := pause_does_not_count 0 60000000 10000000 25000000 500000000 45000000 20000000
    17000000 (by decide) (by decide) (by decide) (by decide) (by decide) (by decide)
    (by decide) (by decide) (by decide) (by decide) (by decide)
  ⟨by decide, by decide, by decide, by decide, by decide, by decide, by decide, by decide,
    by decide, by decide, by decide, h.2.1.trans (by decide), h.2.2.2.1.trans (by decide),
    h.2.2.2.2.symm.trans (by decide)⟩

end CountdownTimer

/-! # Rotary encoder and push button (claims C16 and C22) -/

namespace RotaryEncoder

/-- C16 fails on the code: with a tick period of 10 ms, a button pressed at tick 0 and
released at tick 100 was held for exactly 1000 ms, which is not longer than one second, and
`encoder_check_click` returns `LONG_CLICK`. -/
theorem long_click_at_exactly_one_second :
    (encoder_check_click 10 (some idleEncoder) 0 0).1 = ClickType.NO_CLICK
      ∧ (encoder_check_click 10 (some idleEncoder) 0 0).2
          = some { idleEncoder with press_start_time := 0, is_pressed := true }
      ∧ (100 - 0) * 10 = 1000 ∧ ¬ (1000 > 1000)
      ∧ (encoder_check_click 10 (encoder_check_click 10 (some idleEncoder) 0 0).2 1 100).1
          = ClickType.LONG_CLICK := by
  decide

theorem i32_of_range {x : Int} (hlo : -2 ^ 31 ≤ x) (hhi : x < 2 ^ 31) : i32 x = x := by
  unfold i32
  omega

/-- C22: for an encoder with `min ≤ value ≤ max` and `step ≥ 0`, `value + step` and
`value - step` being representable as `int`, a call of `encoder_check_rotation` leaves
`min ≤ value ≤ max`, keeps `min`, `max` and `step`, and sets `last_clk` to the CLK level read.
On a falling CLK edge (`last_clk = 1`, CLK reads 0) the value becomes
`min (value + step) max` with result `CLOCKWISE` when DT reads 1, and `max (value - step) min`
with result `COUNTERCLOCKWISE` when DT reads 0; on every other call the value is unchanged
and the result is `NONE`. -/
theorem rotation_keeps_range (e : Encoder) (clk dt : Int)
    (hmin : e.min ≤ e.value) (hmax : e.value ≤ e.max) (hstep : 0 ≤ e.step)
    (hadd : e.value + e.step < 2 ^ 31) (hsub : -2 ^ 31 ≤ e.value - e.step) :
    ∃ e', (encoder_check_rotation (some e) clk dt).2 = some e'
      ∧ e'.min ≤ e'.value ∧ e'.value ≤ e'.max
      ∧ e'.min = e.min ∧ e'.max = e.max ∧ e'.step = e.step ∧ e'.last_clk = clk
      ∧ (e.last_clk = 1 ∧ clk = 0 →
          (dt = 1 → e'.value = min (e.value + e.step) e.max
            ∧ (encoder_check_rotation (some e) clk dt).1 = RotationType.CLOCKWISE)
          ∧ (dt = 0 → e'.value = max (e.value - e.step) e.min
            ∧ (encoder_check_rotation (some e) clk dt).1 = RotationType.COUNTERCLOCKWISE))
      ∧ (¬ (e.last_clk = 1 ∧ clk = 0) →
          e'.value = e.value
            ∧ (encoder_check_rotation (some e) clk dt).1 = RotationType.NONE) := by
  have ha : i32 (e.value + e.step) = e.value + e.step := i32_of_range (by omega) hadd
  have hs : i32 (e.value - e.step) = e.value - e.step := i32_of_range hsub (by omega)
  by_cases hedge : e.last_clk = 1 ∧ clk = 0
  · obtain ⟨hl, hc⟩ := hedge
    subst hc
    by_cases hdt : dt = 0
    · subst hdt
      refine ⟨{ e with value := if e.value - e.step < e.min then e.min else e.value - e.step,
                       last_clk := 0 }, ?_, ?_, ?_, rfl, rfl, rfl, rfl, ?_, ?_⟩
      · simp [encoder_check_rotation, hl, hs]
      · show e.min ≤ if e.value - e.step < e.min then e.min else e.value - e.step
        split <;> omega
      · show (if e.value - e.step < e.min then e.min else e.value - e.step) ≤ e.max
        split <;> omega
      · intro _
        refine ⟨fun h => absurd h (by decide), fun _ => ⟨?_, ?_⟩⟩
        · show (if e.value - e.step < e.min then e.min else e.value - e.step)
            = max (e.value - e.step) e.min
          split <;> omega
        · simp [encoder_check_rotation, hl]
      · intro h
        exact absurd ⟨hl, rfl⟩ h
    · refine ⟨{ e with value := if e.value + e.step > e.max then e.max else e.value + e.step,
                       last_clk := 0 }, ?_, ?_, ?_, rfl, rfl, rfl, rfl, ?_, ?_⟩
      · simp [encoder_check_rotation, hl, hdt, ha]
      · show e.min ≤ if e.value + e.step > e.max then e.max else e.value + e.step
        split <;> omega
      · show (if e.value + e.step > e.max then e.max else e.value + e.step) ≤ e.max
        split <;> omega
      · intro _
        refine ⟨fun _ => ⟨?_, ?_⟩, fun h => absurd h hdt⟩
        · show (if e.value + e.step > e.max then e.max else e.value + e.step)
            = min (e.value + e.step) e.max
          split <;> omega
        · simp [encoder_check_rotation, hl, hdt]
      · intro h
        exact absurd ⟨hl, rfl⟩ h
  · refine ⟨{ e with last_clk := clk }, ?_, hmin, hmax, rfl, rfl, rfl, rfl, ?_, ?_⟩
    · simp only [encoder_check_rotation, if_neg hedge]
    · intro h
      exact absurd h hedge
    · intro _
      exact ⟨rfl, by simp only [encoder_check_rotation, if_neg hedge]⟩

/-- C22, witness: the encoder of `app_main` at 15, CLK falling with DT high: one step
clockwise, to 16. -/
theorem rotation_keeps_range_witness :
    idleEncoder.min ≤ idleEncoder.value ∧ idleEncoder.value ≤ idleEncoder.max
      ∧ 0 ≤ idleEncoder.step ∧ idleEncoder.value + idleEncoder.step < 2 ^ 31
      ∧ -2 ^ 31 ≤ idleEncoder.value - idleEncoder.step
      ∧ ∃ e', (encoder_check_rotation (some idleEncoder) 0 1).2 = some e'
        ∧ e'.min ≤ e'.value ∧ e'.value ≤ e'.max ∧ e'.value = 16
        ∧ (encoder_check_rotation (some idleEncoder) 0 1).1 = RotationType.CLOCKWISE :=
  ⟨by decide, by decide, by decide, by decide, by decide,
    match rotation_keeps_range idleEncoder 0 1 (by decide) (by decide) (by decide)
      (by decide) (by decide) with
    | ⟨e', he, h1, h2, _, _, _, _, hedge, _⟩ =>
      ⟨e', he, h1, h2, ((hedge ⟨rfl, rfl⟩).1 rfl).1.trans (by decide),
        ((hedge ⟨rfl, rfl⟩).1 rfl).2⟩⟩

end RotaryEncoder
